import Mathlib

/-!
# Verification of the Noe deterministic policy kernel

This file gives a shallow embedding, in Lean 4, of the parts of the Noe
runtime (chain evaluator, safe context projection, context manager,
canonical serialization and provenance hashing) that the specification
claims C1 to C10 talk about, and proves or refutes each claim against the
embedded code.

Conventions used throughout:

* Python values handled by the evaluator are modelled by the mutual
  inductive family `Val` / `VList` / `VFields` (dicts are association
  lists in insertion order, as Python dicts preserve insertion order and
  never hold duplicate keys).
* JSON-serializable data handled by the canonical codec is modelled by
  the family `JVal` / `JArr` / `JObj`.  Finite Python floats are modelled
  by rationals (`jfloat`), the non-finite floats by `jnan`; the textual
  rendering of a float is taken as a parameter `fr` since Python float
  repr is not re-implemented here.
* SHA-256 itself is not re-implemented: every hashing definition takes the
  digest function `sha : List Nat → List Nat` as an explicit parameter and
  applies it exactly where the source applies `hashlib.sha256(...)`.
  Equalities of hashes are proved for *every* `sha` (they hold at the level
  of the hashed byte strings); inequalities are exhibited on the hashed
  byte strings themselves, so that the corresponding SHA-256 values can
  only coincide on a SHA-256 collision.
-/

deriving instance DecidableEq for Except

namespace Noe

/-! ## §1 Evaluator value universe (noe_parser.py)

The evaluator works on raw Python values: the `_U` sentinel object, `None`,
booleans, integers, strings, lists and dicts.  (Floats only enter the
evaluator through numeric sensor channels that none of the claims touch,
so the numeric leaf of this universe is `Int`.) -/

mutual

inductive Val : Type where
  | vU : Val
  | vnone : Val
  | vbool : Bool → Val
  | vint : Int → Val
  | vstr : String → Val
  | vlist : VList → Val
  | vdict : VFields → Val
  deriving DecidableEq

inductive VList : Type where
  | nil : VList
  | cons (v : Val) (rest : VList) : VList
  deriving DecidableEq

inductive VFields : Type where
  | nil : VFields
  | cons (k : String) (v : Val) (rest : VFields) : VFields
  deriving DecidableEq

end

/-- Python `d.get(k)`: first (only) binding of `k`, if any. -/
def vGet : VFields → String → Option Val
  | .nil, _ => none
  | .cons k v rest, key => if k == key then some v else vGet rest key

/-- Python truth of `x == "undefined"` for an evaluator value. -/
def pyEqUndefStr : Val → Bool
  | .vstr s => s == "undefined"
  | _ => false

/-- `isinstance(x, dict) and x.get("domain") == "error"`. -/
def isErrorDict : Val → Bool
  | .vdict fs =>
      match vGet fs "domain" with
      | some (.vstr s) => s == "error"
      | _ => false
  | _ => false

/-- `isinstance(x, dict) and x.get("domain") == "undefined"`. -/
def isUndefDict : Val → Bool
  | .vdict fs =>
      match vGet fs "domain" with
      | some (.vstr s) => s == "undefined"
      | _ => false
  | _ => false

/-- `x is None`. -/
def isNone : Val → Bool
  | .vnone => true
  | _ => false

/-- The `"undefined"` sentinel string that the evaluator returns for the
undefined trit (`noe_parser.py`). -/
def undefinedVal : Val := .vstr "undefined"

/-- Python `type(x).__name__` over the modelled universe. -/
def pyTypeName : Val → String
  | .vU => "object"
  | .vnone => "NoneType"
  | .vbool _ => "bool"
  | .vint _ => "int"
  | .vstr _ => "str"
  | .vlist _ => "list"
  | .vdict _ => "dict"

mutual

/-- `NoeEvaluator._to_trit` (noe_parser.py, line 914): map a value to the
three-valued logic atom `some true` / `some false` / `none` (undefined).
The `is_undef` check comes first (the `_U` sentinel, the `"undefined"`
string, and `{"domain": "undefined"}` dicts map to undefined), then
truth-domain dicts recurse on their `"value"` field, then booleans map to
themselves and integers to `≠ 0`; everything else is undefined. -/
def toTrit : Val → Option Bool
  | .vU => none
  | .vnone => none
  | .vbool b => some b
  | .vint n => some (n != 0)
  | .vstr _ => none
  | .vlist _ => none
  | .vdict fs =>
      match vGet fs "domain" with
      | some (.vstr s) =>
          if s == "undefined" then none
          else if s == "truth" then toTritValueField fs
          else none
      | _ => none

/-- `_to_trit(v.get("value"))` for a truth-domain dict: find the first
`"value"` binding and recurse; a missing binding is Python `None`, whose
trit is undefined. -/
def toTritValueField : VFields → Option Bool
  | .nil => none
  | .cons k v rest => if k == "value" then toTrit v else toTritValueField rest

end

/-! ## §2 Kleene operators (noe_parser.py `_apply_binary_op`, `_apply_unary_op`)

Only the three-valued logic operators that the claims mention are
embedded: `an` (AND), `ur` (OR), `kra` (guarded execution) and the
negations `nai`/`nex`.  The spatial, temporal, epistemic and other
operator families of `_apply_binary_op` are outside the scope of the
claims and of this embedding. -/

inductive K3Op : Type where
  | an | ur | kra
  deriving DecidableEq

inductive NegOp : Type where
  | nai | nex
  deriving DecidableEq

/-- `check_grounding` (noe_validator.py) specialized to the K3 operators:
`CONTEXT_REQUIREMENTS` (context_requirements.py) has no entry for `an` and
`ur` (so `.get(op, [])` yields `[]`) and the explicit entry `"kra": []`,
hence the requirements loop checks nothing; none of these operators is in
the spatial-entity list, so the dynamic entity check is skipped and the
function returns `True` for every context and argument pair. -/
def checkGroundingK3 (_op : K3Op) (_ctx : Val) : Bool := true

/-- `_ensure_context_for_op` (noe_parser.py, line 773) specialized to
`nai`/`nex`: neither appears in `CONTEXT_REQUIREMENTS`, so `reqs` is empty
and the function returns `True` for every context. -/
def ensureContextForNeg (_op : NegOp) (_ctx : Val) : Bool := true

/-- The `_unwrap` helper of `_apply_binary_op`: a dict carrying a
`"value"` key is replaced by that value. -/
def unwrapValue : Val → Val
  | .vdict fs =>
      match vGet fs "value" with
      | some v => v
      | none => .vdict fs
  | v => v

/-- `NoeEvaluator._apply_binary_op` (noe_parser.py, lines 1935-2026)
restricted to the K3 operators.  Faithful transcription of the order of
the source: error propagation, then the early `undefined` returns (which
fire before the K3 branches), then unwrapping, grounding, and the
`kra`/`an`/`ur` branches. -/
def applyBinaryOp (_mode : String) (ctx : Val) (left : Val) (op : K3Op) (right : Val) : Val :=
  if isErrorDict left then left
  else if isErrorDict right then right
  else if isUndefDict left || pyEqUndefStr left then undefinedVal
  else if isUndefDict right || pyEqUndefStr right then undefinedVal
  else
    let leftVal := unwrapValue left
    let rightVal := unwrapValue right
    if !(checkGroundingK3 op ctx) then undefinedVal
    else
      match op with
      | .kra =>
          match toTrit leftVal with
          | none => undefinedVal
          | some false => undefinedVal
          | some true => rightVal
      | .an =>
          let tL := toTrit leftVal
          let tR := toTrit rightVal
          if tL == some false || tR == some false then .vbool false
          else if tL == none || tR == none then undefinedVal
          else .vbool true
      | .ur =>
          let tL := toTrit leftVal
          let tR := toTrit rightVal
          if tL == some true || tR == some true then .vbool true
          else if tL == some false && tR == some false then .vbool false
          else undefinedVal

/-- `NoeEvaluator._apply_unary_op` (noe_parser.py, lines 1294-1302 and
1465-1469) restricted to `nai`/`nex`: unwrap a literal domain object,
check context completeness (trivial for negation), then
`t = _to_trit(val)`; `None` gives `"undefined"`, otherwise `not t`. -/
def applyUnaryNeg (op : NegOp) (ctx : Val) (val : Val) : Val :=
  let val1 :=
    match val with
    | .vdict fs =>
        match vGet fs "domain" with
        | some (.vstr s) =>
            if s == "literal" then
              match vGet fs "value" with
              | some v => v
              | none => .vnone
            else .vdict fs
        | _ => .vdict fs
    | v => v
  if !(ensureContextForNeg op ctx) then undefinedVal
  else
    match toTrit val1 with
    | none => undefinedVal
    | some b => .vbool (!b)

/-! ## §3 Guard (`khi`) semantics (noe_parser.py `_handle_conditional`) -/

/-- An `ERR_GUARD_TYPE` error domain object, as built by
`_handle_conditional`. -/
def errGuardType (msg : String) : Val :=
  .vdict (.cons "domain" (.vstr "error")
    (.cons "code" (.vstr "ERR_GUARD_TYPE")
      (.cons "value" (.vstr msg) .nil)))

mutual

/-- The `is_valid_action_structure` predicate of `_handle_conditional`: a
dict with `type == "action"`, or a (possibly empty) list all of whose
elements are valid action structures. -/
def isValidActionStructure : Val → Bool
  | .vdict fs =>
      match vGet fs "type" with
      | some (.vstr s) => s == "action"
      | _ => false
  | .vlist xs => allValidActions xs
  | _ => false

def allValidActions : VList → Bool
  | .nil => true
  | .cons v rest => isValidActionStructure v && allValidActions rest

end

/-- `NoeEvaluator._handle_conditional` (noe_parser.py, lines 2524-2611),
for the guard case `[condition, "khi", action_block]`.  Order of the
source: the strict-mode boolean pre-check on the condition (which lets
`"undefined"`, `None`, booleans and undefined/error domain objects pass),
then `_to_trit`; undefined or false conditions give `"undefined"`, a true
condition returns the action block after the strict-mode action-structure
check (`ERR_GUARD_TYPE` otherwise). -/
def handleConditional (mode : String) (condition actionBlock : Val) : Val :=
  let isSpecialObj :=
    match condition with
    | .vdict fs =>
        match vGet fs "domain" with
        | some (.vstr s) => s == "undefined" || s == "error"
        | _ => false
    | _ => false
  let isBool := match condition with | .vbool _ => true | _ => false
  if mode == "strict" && !pyEqUndefStr condition && !isNone condition
      && !isBool && !isSpecialObj then
    errGuardType ("Guard condition must be boolean, got " ++ pyTypeName condition)
  else
    match toTrit condition with
    | none => undefinedVal
    | some true =>
        if mode == "strict" then
          if isValidActionStructure actionBlock then actionBlock
          else errGuardType "Right-hand side of khi must be an action or list of actions in strict mode"
        else actionBlock
    | some false => undefinedVal

/-- `wrap_domain` (noe_parser.py, line 642): map a raw evaluator value
into a typed domain object.  (For int values the source wraps
`float(value)` into the numeric domain; the numeric payload stays an
integer in this universe.) -/
def wrapDomain : Val → Val
  | .vU => .vdict (.cons "domain" (.vstr "undefined") (.cons "value" (.vstr "undefined") .nil))
  | .vdict fs =>
      if (vGet fs "domain").isSome then .vdict fs
      else
        match vGet fs "type" with
        | some (.vstr s) =>
            if s == "action" then
              .vdict (.cons "domain" (.vstr "action") (.cons "value" (.vdict fs) .nil))
            else
              .vdict (.cons "domain" (.vstr "structural") (.cons "value" (.vdict fs) .nil))
        | _ => .vdict (.cons "domain" (.vstr "structural") (.cons "value" (.vdict fs) .nil))
  | .vstr s =>
      if s == "undefined" then
        .vdict (.cons "domain" (.vstr "undefined") (.cons "value" (.vstr "undefined") .nil))
      else .vdict (.cons "domain" (.vstr "structural") (.cons "value" (.vstr s) .nil))
  | .vbool b => .vdict (.cons "domain" (.vstr "truth") (.cons "value" (.vbool b) .nil))
  | .vint n => .vdict (.cons "domain" (.vstr "numeric") (.cons "value" (.vint n) .nil))
  | .vlist xs => .vdict (.cons "domain" (.vstr "list") (.cons "value" (.vlist xs) .nil))
  | .vnone => .vdict (.cons "domain" (.vstr "structural") (.cons "value" .vnone .nil))

/-- The `domain` tag of a wrapped result. -/
def resultDomain : Val → Option String
  | .vdict fs =>
      match vGet fs "domain" with
      | some (.vstr s) => some s
      | _ => none
  | _ => none

mutual

/-- Whether an action object (`type == "action"` dict) occurs anywhere in
a value tree. -/
def containsAction : Val → Bool
  | .vdict fs =>
      (match vGet fs "type" with
       | some (.vstr s) => s == "action"
       | _ => false) || containsActionFields fs
  | .vlist xs => containsActionList xs
  | _ => false

def containsActionList : VList → Bool
  | .nil => false
  | .cons v rest => containsAction v || containsActionList rest

def containsActionFields : VFields → Bool
  | .nil => false
  | .cons _ v rest => containsAction v || containsActionFields rest

end

/-! ## §4 Canonical codec (canonical.py)

JSON-serializable values.  Finite Python floats are `jfloat` rationals
whose textual form is the parameter `fr` (Python float repr); `jnan`
stands for the non-finite floats (`nan`, `inf`), which `json.dumps`
rejects under `allow_nan=False`. -/

mutual

inductive JVal : Type where
  | jnull : JVal
  | jbool : Bool → JVal
  | jint : Int → JVal
  | jfloat : ℚ → JVal
  | jnan : JVal
  | jstr : String → JVal
  | jarr : JArr → JVal
  | jobj : JObj → JVal
  deriving DecidableEq

inductive JArr : Type where
  | nil : JArr
  | cons (v : JVal) (rest : JArr) : JArr
  deriving DecidableEq

inductive JObj : Type where
  | nil : JObj
  | cons (k : String) (v : JVal) (rest : JObj) : JObj
  deriving DecidableEq

end

/-- Python `d.get(k)` on a JSON object. -/
def jobjGet : JObj → String → Option JVal
  | .nil, _ => none
  | .cons k v rest, key => if k == key then some v else jobjGet rest key

/-- Python `d[k] = v`: replace the value of an existing key in place, or
append a new binding at the end (dicts preserve insertion order). -/
def jobjSet : JObj → String → JVal → JObj
  | .nil, k, v => .cons k v .nil
  | .cons k2 v2 rest, k, v =>
      if k2 == k then .cons k2 v rest else .cons k2 v2 (jobjSet rest k v)

/-- Python `del d[k]` (first binding). -/
def jobjDel : JObj → String → JObj
  | .nil, _ => .nil
  | .cons k2 v2 rest, k => if k2 == k then rest else .cons k2 v2 (jobjDel rest k)

/-- Python string comparison (`<` on code-point sequences, shorter prefix
first).  Defined over char lists so that it evaluates in the kernel. -/
def charListLt : List Char → List Char → Bool
  | [], [] => false
  | [], _ :: _ => true
  | _ :: _, [] => false
  | a :: as, b :: bs =>
      if a.toNat < b.toNat then true
      else if b.toNat < a.toNat then false
      else charListLt as bs

def strLtB (a b : String) : Bool := charListLt a.data b.data

/-- Stable insertion into a key-sorted object: skip past strictly smaller
keys only, so that among equal keys the earlier element stays first
(Python `sorted` is stable; real dicts never hold equal keys). -/
def jobjInsert (k : String) (v : JVal) : JObj → JObj
  | .nil => .cons k v .nil
  | .cons k2 v2 rest =>
      if strLtB k2 k then .cons k2 v2 (jobjInsert k v rest)
      else .cons k v (.cons k2 v2 rest)

/-- Sort an object by key (the effect of `json.dumps(..., sort_keys=True)`
at one level). -/
def jobjSort : JObj → JObj
  | .nil => .nil
  | .cons k v rest => jobjInsert k v (jobjSort rest)

mutual

/-- Recursively sort every object in a JSON tree by key.  Serializing
`jsortVal v` without further sorting equals `json.dumps(v, sort_keys=True)`. -/
def jsortVal : JVal → JVal
  | .jobj fs => .jobj (jobjSort (jsortFields fs))
  | .jarr xs => .jarr (jsortArr xs)
  | v => v

def jsortArr : JArr → JArr
  | .nil => .nil
  | .cons v rest => .cons (jsortVal v) (jsortArr rest)

def jsortFields : JObj → JObj
  | .nil => .nil
  | .cons k v rest => .cons k (jsortVal v) (jsortFields rest)

end

/-- Lowercase hex digit. -/
def hexDigitChar (n : Nat) : Char :=
  if n < 10 then Char.ofNat (48 + n) else Char.ofNat (87 + n)

def u16Hex (n : Nat) : List Char :=
  [hexDigitChar (n / 4096 % 16), hexDigitChar (n / 256 % 16),
   hexDigitChar (n / 16 % 16), hexDigitChar (n % 16)]

/-- CPython `json` ASCII escaping of one character (`ensure_ascii=True`):
the two-character escapes, `\uXXXX` for other control or non-ASCII
characters (surrogate pairs above the BMP), printable ASCII unchanged. -/
def jsonEscapeChar (c : Char) : List Char :=
  let n := c.toNat
  if n = 34 then ['\\', '"']
  else if n = 92 then ['\\', '\\']
  else if n = 10 then ['\\', 'n']
  else if n = 13 then ['\\', 'r']
  else if n = 9 then ['\\', 't']
  else if n = 8 then ['\\', 'b']
  else if n = 12 then ['\\', 'f']
  else if n < 32 || n > 126 then
    if n < 65536 then '\\' :: 'u' :: u16Hex n
    else
      let m := n - 65536
      ('\\' :: 'u' :: u16Hex (55296 + m / 1024)) ++ ('\\' :: 'u' :: u16Hex (56320 + m % 1024))
  else [c]

def jsonEscape (s : String) : String :=
  "\"" ++ String.mk (s.data.foldr (fun c acc => jsonEscapeChar c ++ acc) []) ++ "\""

def joinComma : List String → String
  | [] => ""
  | [s] => s
  | s :: rest => s ++ "," ++ joinComma rest

/-- Failures of `canonical_json` (canonical.py): the float ban
(`ValueError` from `_check_no_floats`) and the NaN/Infinity rejection
(`ValueError` from `json.dumps(..., allow_nan=False)`). -/
inductive CanErr : Type where
  | floatNotAllowed : CanErr
  | invalidNumber : CanErr
  deriving DecidableEq

mutual

/-- `_check_no_floats` (canonical.py line 54): does a float occur anywhere
(`jnan` is a float instance too)?  Python raises when this is true. -/
def hasFloat : JVal → Bool
  | .jfloat _ => true
  | .jnan => true
  | .jobj fs => hasFloatFields fs
  | .jarr xs => hasFloatArr xs
  | _ => false

def hasFloatArr : JArr → Bool
  | .nil => false
  | .cons v rest => hasFloat v || hasFloatArr rest

def hasFloatFields : JObj → Bool
  | .nil => false
  | .cons _ v rest => hasFloat v || hasFloatFields rest

end

mutual

/-- `json.dumps(v, sort_keys=True, separators=(",", ":"),
ensure_ascii=True, allow_nan=False)` on an already key-sorted tree. -/
def serVal (fr : ℚ → String) : JVal → Except CanErr String
  | .jnull => .ok "null"
  | .jbool b => .ok (if b then "true" else "false")
  | .jint n => .ok (toString n)
  | .jfloat q => .ok (fr q)
  | .jnan => .error .invalidNumber
  | .jstr s => .ok (jsonEscape s)
  | .jarr xs =>
      match serArr fr xs with
      | .error e => .error e
      | .ok parts => .ok ("[" ++ joinComma parts ++ "]")
  | .jobj fs =>
      match serObj fr fs with
      | .error e => .error e
      | .ok parts => .ok ("\x7b" ++ joinComma parts ++ "\x7d")

def serArr (fr : ℚ → String) : JArr → Except CanErr (List String)
  | .nil => .ok []
  | .cons v rest =>
      match serVal fr v with
      | .error e => .error e
      | .ok s =>
          match serArr fr rest with
          | .error e => .error e
          | .ok r => .ok (s :: r)

def serObj (fr : ℚ → String) : JObj → Except CanErr (List String)
  | .nil => .ok []
  | .cons k v rest =>
      match serVal fr v with
      | .error e => .error e
      | .ok s =>
          match serObj fr rest with
          | .error e => .error e
          | .ok r => .ok ((jsonEscape k ++ ":" ++ s) :: r)

end

/-- `canonical_json` (canonical.py line 64): optional float ban first
(`reject_floats`), then deterministic serialization with sorted keys, no
whitespace, ASCII escaping and NaN/Infinity rejected. -/
def canonicalJson (fr : ℚ → String) (rejectFloats : Bool) (v : JVal) : Except CanErr String :=
  if rejectFloats && hasFloat v then .error .floatNotAllowed
  else serVal fr (jsortVal v)

/-- UTF-8 encoding of a character (code point arithmetic). -/
def utf8Char (c : Char) : List Nat :=
  let n := c.toNat
  if n < 128 then [n]
  else if n < 2048 then [192 + n / 64, 128 + n % 64]
  else if n < 65536 then [224 + n / 4096, 128 + n / 64 % 64, 128 + n % 64]
  else [240 + n / 262144, 128 + n / 4096 % 64, 128 + n / 64 % 64, 128 + n % 64]

/-- `s.encode("utf-8")` as a byte list. -/
def utf8Str (s : String) : List Nat :=
  s.data.foldr (fun c acc => utf8Char c ++ acc) []

/-- `bytes.hex()` / `hexdigest()`. -/
def hexByte (n : Nat) : List Char := [hexDigitChar (n / 16 % 16), hexDigitChar (n % 16)]

def hexOfBytes (bs : List Nat) : String :=
  String.mk (bs.foldr (fun b acc => hexByte b ++ acc) [])

/-- `canonical_bytes` (canonical.py line 82): canonical JSON with the
float ban enforced, UTF-8 encoded — per its own docstring the required
serializer for all provenance/action/decision hashing. -/
def canonicalBytes (fr : ℚ → String) (v : JVal) : Except CanErr (List Nat) :=
  (canonicalJson fr true v).map utf8Str

/-! ## §5 Context manager (context_manager.py) and validator hashes
(noe_validator.py) -/

/-- Context-layer failures (`ContextError` hierarchy of context_manager.py,
plus serialization `ValueError`s propagating out of `canonical_json`).
`fuelOut` is an artifact of the bounded embedding of the recursive
`_deep_merge`; every theorem quantifies over the fuel. -/
inductive CtxErr : Type where
  | contextTooLarge : CtxErr
  | badContext : CtxErr
  | serialization : CanErr → CtxErr
  | fuelOut : CtxErr
  deriving DecidableEq

/-- `_deep_merge` (context_manager.py line 177): shallow-copy the base,
then for each overlay entry recurse when both sides hold dicts, otherwise
overwrite (deep copies are identities in a pure model). -/
def deepMergeFuel : Nat → JVal → JVal → Option JVal
  | 0, _, _ => none
  | fuel + 1, base, overlay =>
      match base, overlay with
      | .jobj bf, .jobj ofs => (mergeFieldsFuel fuel bf ofs).map .jobj
      | _, _ => some overlay
where
  mergeFieldsFuel : Nat → JObj → JObj → Option JObj
    | 0, _, _ => none
    | _, res, .nil => some res
    | fuel + 1, res, .cons k v rest =>
        let newV :=
          match jobjGet res k, v with
          | some (.jobj b2), .jobj o2 => (mergeFieldsFuel fuel b2 o2).map JVal.jobj
          | _, _ => some v
        match newV with
        | none => none
        | some nv => mergeFieldsFuel fuel (jobjSet res k nv) rest

/-- The in-memory state of `ContextManager`: the three layers, the
staleness window, the shard size limit (0 = unlimited) and the timestamp
of the last local update. -/
structure CMState where
  root : JVal
  domain : JVal
  localLayer : JVal
  stalenessMs : Int
  maxShardSize : Nat
  lastLocalUpdateMs : Int
  deriving DecidableEq

/-- `_hash_json_digest` (context_manager.py line 152): canonical JSON of
the shard (floats permitted: context hashing is the non-strict mode),
size limit check, then the SHA-256 digest and its hex form. -/
def hashJsonDigest (sha : List Nat → List Nat) (fr : ℚ → String) (maxSize : Nat)
    (v : JVal) : Except CtxErr (List Nat × String) :=
  match canonicalJson fr false v with
  | .error e => .error (.serialization e)
  | .ok s =>
      let bytes := utf8Str s
      if maxSize > 0 && bytes.length > maxSize then .error .contextTooLarge
      else
        let digest := sha bytes
        .ok (digest, hexOfBytes digest)

/-- `ContextSnapshot` (context_manager.py line 204), restricted to the
hash/staleness fields plus the structured three-layer export that feeds
the validator. -/
structure Snapshot where
  rootHash : String
  domainHash : String
  localHash : String
  contextHash : String
  timestampMs : Int
  isStale : Bool
  structured : JVal
  deriving DecidableEq

/-- `ContextManager.snapshot` (context_manager.py line 414): staleness
from `now - last_local_update > staleness_ms`, per-layer digests (the
root/domain digests are cached at construction from exactly these layer
values, so recomputing them here is equivalent), and the composite hash
`sha256(root_digest ++ domain_digest ++ local_digest)` over the raw
digest *bytes*. -/
def snapshotCM (sha : List Nat → List Nat) (fr : ℚ → String) (st : CMState)
    (nowMs : Int) : Except CtxErr Snapshot :=
  let isStale := decide (nowMs - st.lastLocalUpdateMs > st.stalenessMs)
  match hashJsonDigest sha fr st.maxShardSize st.root with
  | .error e => .error e
  | .ok (rd, rh) =>
      match hashJsonDigest sha fr st.maxShardSize st.domain with
      | .error e => .error e
      | .ok (dd, dh) =>
          match hashJsonDigest sha fr st.maxShardSize st.localLayer with
          | .error e => .error e
          | .ok (ld, lh) =>
              .ok { rootHash := rh
                    domainHash := dh
                    localHash := lh
                    contextHash := hexOfBytes (sha (rd ++ dd ++ ld))
                    timestampMs := nowMs
                    isStale := isStale
                    structured := .jobj (.cons "root" st.root
                      (.cons "domain" st.domain
                        (.cons "local" st.localLayer .nil))) }

/-- `ContextManager.update_local` (context_manager.py line 491), with the
state threaded explicitly: validate the delta, deep-merge, enforce the
size limit, and only then — on success — assign the new local layer and
bump the last-update timestamp.  All failure branches return the original
state untouched, mirroring that the Python method raises before any
assignment to `self._local` / `self._last_local_update_ms`. -/
def updateLocal (fuel : Nat) (fr : ℚ → String) (st : CMState) (delta : JVal)
    (nowMs : Int) : Except CtxErr Unit × CMState :=
  match delta with
  | .jobj _ =>
      match deepMergeFuel fuel st.localLayer delta with
      | none => (.error .fuelOut, st)
      | some newLocal =>
          if st.maxShardSize > 0 then
            match canonicalJson fr false newLocal with
            | .error e => (.error (.serialization e), st)
            | .ok s =>
                if (utf8Str s).length > st.maxShardSize then
                  (.error .contextTooLarge, st)
                else
                  (.ok (), { st with localLayer := newLocal, lastLocalUpdateMs := nowMs })
          else (.ok (), { st with localLayer := newLocal, lastLocalUpdateMs := nowMs })
  | _ => (.error .badContext, st)

/-- Python `k.startswith("_")`. -/
def strStartsUnderscore (k : String) : Bool :=
  match k.data with
  | [] => false
  | c :: _ => c == '_'

mutual

/-- The `_normalize` step of the validator's `_canonical_json`
(noe_validator.py line 157): recursively drop dict entries whose key
starts with an underscore.  (It also drops non-string keys, which cannot
occur in this universe, and turns tuples into lists, which have no
separate representation here.) -/
def normUnderscore : JVal → JVal
  | .jobj fs => .jobj (normUnderscoreFields fs)
  | .jarr xs => .jarr (normUnderscoreArr xs)
  | v => v

def normUnderscoreArr : JArr → JArr
  | .nil => .nil
  | .cons v rest => .cons (normUnderscore v) (normUnderscoreArr rest)

def normUnderscoreFields : JObj → JObj
  | .nil => .nil
  | .cons k v rest =>
      if strStartsUnderscore k then normUnderscoreFields rest
      else .cons k (normUnderscore v) (normUnderscoreFields rest)

end

mutual

/-- No dict key anywhere in the tree starts with an underscore. -/
def noUnderscoreKeys : JVal → Bool
  | .jobj fs => noUnderscoreKeysFields fs
  | .jarr xs => noUnderscoreKeysArr xs
  | _ => true

def noUnderscoreKeysArr : JArr → Bool
  | .nil => true
  | .cons v rest => noUnderscoreKeys v && noUnderscoreKeysArr rest

def noUnderscoreKeysFields : JObj → Bool
  | .nil => true
  | .cons k v rest =>
      !strStartsUnderscore k && noUnderscoreKeys v && noUnderscoreKeysFields rest

end

/-- The four hex hashes returned by the validator. -/
structure CtxHashes where
  rootHex : String
  domainHex : String
  localHex : String
  total : String
  deriving DecidableEq

/-- `compute_context_hashes` (noe_validator.py line 176): split the
context into its three layers (structured when all of root/domain/local
are present, otherwise the whole dict is the local layer), hash each
layer's `_canonical_json` (which first strips underscore-prefixed keys),
and compose the total hash from the three digest byte strings. -/
def computeContextHashes (sha : List Nat → List Nat) (fr : ℚ → String)
    (C : JVal) : Except CanErr CtxHashes :=
  let layers : JVal × JVal × JVal :=
    match C with
    | .jobj fs =>
        if (jobjGet fs "root").isSome && (jobjGet fs "domain").isSome
            && (jobjGet fs "local").isSome then
          ((jobjGet fs "root").getD (.jobj .nil),
           (jobjGet fs "domain").getD (.jobj .nil),
           (jobjGet fs "local").getD (.jobj .nil))
        else (.jobj .nil, .jobj .nil, C)
    | _ => (.jobj .nil, .jobj .nil, C)
  match canonicalJson fr false (normUnderscore layers.1) with
  | .error e => .error e
  | .ok sr =>
      match canonicalJson fr false (normUnderscore layers.2.1) with
      | .error e => .error e
      | .ok sd =>
          match canonicalJson fr false (normUnderscore layers.2.2) with
          | .error e => .error e
          | .ok sl =>
              let rb := sha (utf8Str sr)
              let db := sha (utf8Str sd)
              let lb := sha (utf8Str sl)
              .ok { rootHex := hexOfBytes rb
                    domainHex := hexOfBytes db
                    localHex := hexOfBytes lb
                    total := hexOfBytes (sha (rb ++ db ++ lb)) }

/-! ## §6 Provenance hashing (provenance.py and
`_finalize_action_static` of noe_parser.py) -/

/-- `OUTCOME_FIELDS` (provenance.py line 32): the context-derived outcome
fields excluded from the action (proposal) hash. -/
def OUTCOME_FIELDS : List String :=
  ["status", "verified", "audit_status", "expires_at_ms", "observed_at_ms"]

/-- Python truthiness `bool(x)` of a JSON value (NaN is truthy). -/
def jTruthy : JVal → Bool
  | .jnull => false
  | .jbool b => b
  | .jint n => n != 0
  | .jfloat q => q != 0
  | .jnan => true
  | .jstr s => !s.data.isEmpty
  | .jarr .nil => false
  | .jarr (.cons _ _) => true
  | .jobj .nil => false
  | .jobj (.cons _ _ _) => true

/-- `obj.get("_include_outcome_in_hash", False)` as a truth value. -/
def includeOutcomeFlag (fs : JObj) : Bool :=
  match jobjGet fs "_include_outcome_in_hash" with
  | some v => jTruthy v
  | none => false

/-- The exclusion key set assembled by `_normalize_action` (provenance.py
line 77): static metadata and hash keys, plus `target` under pointer
semantics when `child_action_hash` is present, plus the outcome fields
unless the internal include-outcome flag is truthy. -/
def normalizeExcludedKeys (fs : JObj) : List String :=
  let base := ["hash", "meta", "action_hash", "provenance", "child_event_hash", "event_hash"]
  let base1 := if (jobjGet fs "child_action_hash").isSome then "target" :: base else base
  if includeOutcomeFlag fs then base1 else OUTCOME_FIELDS ++ base1

mutual

/-- `_normalize_action` (provenance.py line 77).  Python iterates
`sorted(obj.keys())` and skips underscore-prefixed and excluded keys while
recursing on the kept values; filtering and recursing first and sorting
the surviving bindings afterwards produces the same association list,
since the sort is stable and filtering preserves relative order. -/
def normalizeAction : JVal → JVal
  | .jobj fs => .jobj (jobjSort (normalizeFields (normalizeExcludedKeys fs) fs))
  | .jarr xs => .jarr (normalizeActionArr xs)
  | v => v

def normalizeActionArr : JArr → JArr
  | .nil => .nil
  | .cons v rest => .cons (normalizeAction v) (normalizeActionArr rest)

def normalizeFields : List String → JObj → JObj
  | _, .nil => .nil
  | excl, .cons k v rest =>
      if strStartsUnderscore k || excl.contains k then normalizeFields excl rest
      else .cons k (normalizeAction v) (normalizeFields excl rest)

end

/-- Failures of `compute_action_hash`: the not-a-dict `ValueError`, a
serialization `ValueError`, and the bounded-recursion artifact of the
embedding (theorems quantify over the fuel). -/
inductive HashErr : Type where
  | notADict : HashErr
  | serialization : CanErr → HashErr
  | fuelOut : HashErr
  deriving DecidableEq

def isActionTypeObj (fs : JObj) : Bool :=
  match jobjGet fs "type" with
  | some (.jstr s) => s == "action"
  | _ => false

/-- `compute_action_hash` (provenance.py line 135): recursively hash a
nested action target when its `action_hash` is missing (mutating the
target and setting `child_action_hash` on the parent — modelled by
returning the updated object alongside the hash), then normalize and
serialize with `canonical_json` — notably *without* `reject_floats`
(`canonical_bytes` is never used here, despite canonical.py's docstring),
and hash the UTF-8 payload. -/
def computeActionHash : Nat → (List Nat → List Nat) → (ℚ → String) → JVal →
    Except HashErr (String × JVal)
  | 0, _, _, _ => .error .fuelOut
  | fuel + 1, sha, fr, obj =>
      match obj with
      | .jobj fs =>
          let fsStep : Except HashErr JObj :=
            match jobjGet fs "target" with
            | some (.jobj tf) =>
                if isActionTypeObj tf then
                  match jobjGet tf "action_hash" with
                  | some h => .ok (jobjSet fs "child_action_hash" h)
                  | none =>
                      match computeActionHash fuel sha fr (.jobj tf) with
                      | .error e => .error e
                      | .ok (childHash, childObj) =>
                          let newTarget :=
                            match childObj with
                            | .jobj cf => JVal.jobj (jobjSet cf "action_hash" (.jstr childHash))
                            | v => v
                          .ok (jobjSet (jobjSet fs "target" newTarget)
                                "child_action_hash" (.jstr childHash))
                else .ok fs
            | _ => .ok fs
          match fsStep with
          | .error e => .error e
          | .ok fs2 =>
              match canonicalJson fr false (normalizeAction (.jobj fs2)) with
              | .error e => .error (.serialization e)
              | .ok payload => .ok (hexOfBytes (sha (utf8Str payload)), .jobj fs2)
      | _ => .error .notADict

/-- The serialized payload whose SHA-256 is the hash that
`compute_action_hash` returns (for relating distinct hashes to distinct
hashed byte strings). -/
def actionHashPayload (fuel : Nat) (sha : List Nat → List Nat) (fr : ℚ → String)
    (obj : JVal) : Except HashErr String :=
  match computeActionHash fuel sha fr obj with
  | .error e => .error e
  | .ok (_, obj2) => (canonicalJson fr false (normalizeAction obj2)).mapError .serialization

/-- Steps 2-3 of `_finalize_action_static` (noe_parser.py line 288):
compute the action (proposal) hash, store it on the object, and compute
the event hash — equal to the action hash when no outcome field is
present, otherwise a recomputation with the temporary
`_include_outcome_in_hash` flag set (and deleted afterwards).  Returns
`(action_hash, event_hash, final object)`. -/
def finalizeHashes (fuel : Nat) (sha : List Nat → List Nat) (fr : ℚ → String)
    (obj : JVal) : Except HashErr (String × String × JVal) :=
  match computeActionHash fuel sha fr obj with
  | .error e => .error e
  | .ok (aHash, obj1) =>
      let obj2 :=
        match obj1 with
        | .jobj fs => JVal.jobj (jobjSet fs "action_hash" (.jstr aHash))
        | v => v
      let hasOutcomes :=
        match obj2 with
        | .jobj fs => OUTCOME_FIELDS.any (fun f => (jobjGet fs f).isSome)
        | _ => false
      if hasOutcomes then
        let obj3 :=
          match obj2 with
          | .jobj fs => JVal.jobj (jobjSet fs "_include_outcome_in_hash" (.jbool true))
          | v => v
        match computeActionHash fuel sha fr obj3 with
        | .error e => .error e
        | .ok (eHash, obj4) =>
            let obj5 :=
              match obj4 with
              | .jobj fs => JVal.jobj (jobjDel fs "_include_outcome_in_hash")
              | v => v
            .ok (aHash, eHash, obj5)
      else .ok (aHash, aHash, obj2)

/-- The serialized payload hashed for the *event* hash of
`_finalize_action_static` (action hash attached, include-outcome flag
set). -/
def eventHashPayload (fuel : Nat) (sha : List Nat → List Nat) (fr : ℚ → String)
    (obj : JVal) : Except HashErr String :=
  match computeActionHash fuel sha fr obj with
  | .error e => .error e
  | .ok (aHash, obj1) =>
      let obj2 :=
        match obj1 with
        | .jobj fs => JVal.jobj (jobjSet fs "action_hash" (.jstr aHash))
        | v => v
      let obj3 :=
        match obj2 with
        | .jobj fs => JVal.jobj (jobjSet fs "_include_outcome_in_hash" (.jbool true))
        | v => v
      actionHashPayload fuel sha fr obj3

/-! ## §7 Provenance records (provenance.py `build_provenance_record`,
noe_runtime.py `evaluate` / `evaluate_with_provenance`) -/

/-- The `prov_data` dict attached by `NoeRuntime.evaluate`
(noe_runtime.py lines 445-481); `none` models the `provenance=None` of
the error and undefined result paths (`_error`, `_undefined`, and the
undefined non-execution branch).  `execReqHash`, `childHash` and
`decisionHashv` stand for the values of `compute_execution_request_hash`,
`compute_child_action_hash` and `compute_decision_hash` — always-present
hex strings whose exact value the claims do not touch. -/
structure ProvData where
  parentActionHash : Option String
  domainPackHash : String
  ctxHash : String
  actionHash : Option String
  childActionHash : Option String
  decisionHash : Option String
  deriving DecidableEq

def runtimeProvData (domain : String) (parent : Option String)
    (execReqHash childHash decisionHashv : String)
    (snapDomainHash snapContextHash : String) : Option ProvData :=
  if domain == "error" || domain == "undefined" then none
  else
    some { parentActionHash := parent
           domainPackHash := snapDomainHash
           ctxHash := snapContextHash
           actionHash := if domain == "action" then some execReqHash else none
           childActionHash :=
             if domain == "action" then
               match parent with
               | some _ => some childHash
               | none => none
             else none
           decisionHash := if domain == "action" then none else some decisionHashv }

/-- The hash-bearing fields of a `ProvenanceRecord`. -/
structure ProvRecord where
  actionHash : Option String
  childActionHash : Option String
  decisionHash : Option String
  provenanceHash : Option String
  deriving DecidableEq

/-- `build_provenance_record` (provenance.py line 415), restricted to its
integrity enforcement: blocked results (`error`/`undefined`) keep no
identity at all (all hashes nulled, `provenance_hash` explicitly None);
non-action results drop the action hashes; action results drop the
decision hash.  `provPayloadHash` stands for the computed
`_sha256_hex(canonical_json(hash_payload))`. -/
def buildProvenanceRecord (resultDomain : String) (provPayloadHash : String)
    (actionHash childActionHash decisionHash : Option String) : ProvRecord :=
  let isAction := resultDomain == "action"
  let isBlocked := resultDomain == "error" || resultDomain == "undefined"
  let h3 : Option String × Option String × Option String :=
    if isBlocked then (none, none, none)
    else if !isAction then (none, none, decisionHash)
    else (actionHash, childActionHash, none)
  let finalProvHash : Option String :=
    if resultDomain == "error" || resultDomain == "undefined" then none
    else some provPayloadHash
  { actionHash := h3.1, childActionHash := h3.2.1, decisionHash := h3.2.2,
    provenanceHash := finalProvHash }

/-- `evaluate_with_provenance` (noe_runtime.py line 596): evaluate, then
feed `(rr.provenance or {}).get(...)` into `build_provenance_record`. -/
def evaluateWithProvenance (domain : String) (parent : Option String)
    (execReqHash childHash decisionHashv provPayloadHash : String)
    (snapDomainHash snapContextHash : String) : ProvRecord :=
  let pd := runtimeProvData domain parent execReqHash childHash decisionHashv
    snapDomainHash snapContextHash
  buildProvenanceRecord domain provPayloadHash
    (pd.bind ProvData.actionHash) (pd.bind ProvData.childActionHash)
    (pd.bind ProvData.decisionHash)

/-! ## §8 Chain canonicalization (canonical.py) and the runtime entry
gates (noe_runtime.py lines 248-288) -/

/-- Python `s.split()`: split on runs of whitespace (`ws` is Python
`str.isspace`), producing no empty words. -/
def splitWsAux (ws : Char → Bool) : List Char → List Char → List (List Char)
  | [], acc => if acc.isEmpty then [] else [acc.reverse]
  | c :: rest, acc =>
      if ws c then
        if acc.isEmpty then splitWsAux ws rest []
        else acc.reverse :: splitWsAux ws rest []
      else splitWsAux ws rest (c :: acc)

def pySplitWs (ws : Char → Bool) (s : List Char) : List (List Char) :=
  splitWsAux ws s []

/-- `" ".join(words)`. -/
def joinSpace : List (List Char) → List Char
  | [] => []
  | [w] => w
  | w :: rest => w ++ ' ' :: joinSpace rest

/-- `" ".join(s.split())`: collapse whitespace runs to single ASCII
spaces and strip at both ends. -/
def collapseWs (ws : Char → Bool) (s : String) : String :=
  String.mk (joinSpace (pySplitWs ws s.data))

/-- `canonicalize_chain` (canonical.py line 32): NFKC normalization (the
parameter `nfkc` stands for `unicodedata.normalize("NFKC", ·)`), then
whitespace collapsing.  (The `None → ""` branch concerns a non-string
input outside this universe.) -/
def canonicalizeChain (nfkc : String → String) (ws : Char → Bool) (s : String) : String :=
  collapseWs ws (nfkc s)

/-- Error-code mapping for exceptions escaping `snapshot()` inside
`evaluate`: `BadContextError` has its own handler; `ContextTooLargeError`
and `ValueError` fall through to the generic `ERR_RUNTIME_INTERNAL`
handler. -/
def ctxErrCode : CtxErr → String
  | .badContext => "ERR_BAD_CONTEXT"
  | .contextTooLarge => "ERR_RUNTIME_INTERNAL"
  | .serialization _ => "ERR_RUNTIME_INTERNAL"
  | .fuelOut => "ERR_RUNTIME_INTERNAL"

/-- The observable part of a `RuntimeResult` that the entry-gate claims
touch. -/
structure RResult where
  domain : String
  errorCode : Option String
  ctxHash : String
  provenance : Option ProvData
  deriving DecidableEq

/-- The entry gates of `NoeRuntime.evaluate` (noe_runtime.py lines
248-288), in source order: canonicalize the chain, snapshot, the
canonicalization idempotency self-check, the domain-pack consistency
check, and the strict-mode staleness gate.  Everything after the gates
(validation, projection, parsing, evaluation, provenance attachment) is
the continuation `rest`, which receives the canonical chain and the
snapshot. -/
def runtimeEvaluateGates (sha : List Nat → List Nat) (fr : ℚ → String)
    (nfkc : String → String) (ws : Char → Bool)
    (strictMode : Bool) (expectedDomainHash : Option String)
    (cm : CMState) (nowMs : Int) (chainText : String)
    (rest : String → Snapshot → RResult) : RResult :=
  let chain := canonicalizeChain nfkc ws chainText
  match snapshotCM sha fr cm nowMs with
  | .error e =>
      { domain := "error", errorCode := some (ctxErrCode e),
        ctxHash := "UNKNOWN", provenance := none }
  | .ok snap =>
      if canonicalizeChain nfkc ws chain != chain then
        { domain := "error", errorCode := some "ERR_CANONICALIZATION_NON_IDEMPOTENT",
          ctxHash := snap.contextHash, provenance := none }
      else if (match expectedDomainHash with
               | some h => snap.domainHash != h
               | none => false) then
        { domain := "error", errorCode := some "CONFIG_MISMATCH",
          ctxHash := snap.contextHash, provenance := none }
      else if snap.isStale && strictMode then
        { domain := "error", errorCode := some "ERR_CONTEXT_STALE",
          ctxHash := snap.contextHash, provenance := none }
      else rest chain snap

/-! ## §9 Safe projection (context_projection.py) -/

/-- Scalar evidence values.  All Python scalars are hashable, so the
JSON-canonicalization branch of the consensus loop (for dict/list
evidence values) is outside this universe; `pnanF` is `float("nan")`,
`pfloat` a finite float. -/
inductive PyVal : Type where
  | pnone : PyVal
  | pbool : Bool → PyVal
  | pint : Int → PyVal
  | pstr : String → PyVal
  | pfloat : ℚ → PyVal
  | pnanF : PyVal
  deriving DecidableEq

/-- `AnnotatedLiteral` (context_projection.py line 47); confidence is a
finite rational (the evidence extractor already drops non-finite
confidences, and `is_candidate` re-checks finiteness, which holds
identically on this universe). -/
structure AnnLit where
  predicate : String
  value : PyVal
  timestamp : Int
  source : String
  confidence : ℚ
  deriving DecidableEq

/-- `BareLiteral`. -/
structure BareLit where
  predicate : String
  value : PyVal
  deriving DecidableEq

/-- `ProjectionConfig` (all times in milliseconds). -/
structure ProjConfig where
  tauStaleMs : Int
  thetaThresh : ℚ
  tauWindowMs : Int
  deriving DecidableEq

def MAX_CLOCK_SKEW_MS : Int := 200

/-- Association-list `get` with string keys (Python `dict.get`). -/
def alistGet {α : Type} : List (String × α) → String → Option α
  | [], _ => none
  | (k2, v) :: rest, k => if k2 == k then some v else alistGet rest k

/-- Generic association-list assignment `d[k] = v`. -/
def alistPut {κ α : Type} [DecidableEq κ] : List (κ × α) → κ → α → List (κ × α)
  | [], k, v => [(k, v)]
  | (k2, v2) :: rest, k, v =>
      if k2 = k then (k2, v) :: rest else (k2, v2) :: alistPut rest k v

/-- `is_candidate` (context_projection.py line 83): freshness (future
timestamps beyond the clock-skew bound and stale readings rejected),
confidence threshold, and the optional per-predicate source allow-list. -/
def isCandidate (l : AnnLit) (cfg : ProjConfig) (nowMs : Int)
    (authMap : Option (List (String × List String))) : Bool :=
  let age := nowMs - l.timestamp
  if age < -MAX_CLOCK_SKEW_MS then false
  else if age > cfg.tauStaleMs then false
  else if l.confidence < cfg.thetaThresh then false
  else
    match authMap with
    | none => true
    | some am =>
        match alistGet am l.predicate with
        | none => true
        | some allowed => allowed.contains l.source

/-- Group the filtered candidates by predicate, preserving first-seen
predicate order and within-predicate candidate order (Python dict-of-list
accumulation). -/
def addToPredGroup (m : List (String × List AnnLit)) (c : AnnLit) :
    List (String × List AnnLit) :=
  if (alistGet m c.predicate).isSome then
    m.map (fun p => if p.1 == c.predicate then (p.1, p.2 ++ [c]) else p)
  else m ++ [(c.predicate, [c])]

def byPred (cs : List AnnLit) : List (String × List AnnLit) :=
  cs.foldl addToPredGroup []

/-- Stable descending sort by timestamp (`items.sort(key=timestamp,
reverse=True)`): move past an element only when its timestamp is strictly
newer, so candidates with equal timestamps keep their original order. -/
def insDescTs (x : AnnLit) : List AnnLit → List AnnLit
  | [] => [x]
  | y :: ys => if y.timestamp > x.timestamp then y :: insDescTs x ys else x :: y :: ys

def sortDescTs : List AnnLit → List AnnLit
  | [] => []
  | x :: xs => insDescTs x (sortDescTs xs)

def pyTypeNameP : PyVal → String
  | .pnone => "NoneType"
  | .pbool _ => "bool"
  | .pint _ => "int"
  | .pstr _ => "str"
  | .pfloat _ => "float"
  | .pnanF => "float"

/-- The consensus key `(type(v).__name__, v)` of the V1.0 hardening
(type-tagged equality, so `1 ≠ True ≠ 1.0`); `none` when the NaN guard
skips the candidate entirely. -/
def groupKeyOf : PyVal → Option (String × PyVal)
  | .pnanF => none
  | v => some (pyTypeNameP v, v)

/-- `group_id = independence_groups.get(source, source)` (an empty map
behaves like no map, exactly as Python falsiness does). -/
def groupIdOf (indep : List (String × String)) (src : String) : String :=
  match alistGet indep src with
  | some g => g
  | none => src

/-- Python `set.add` on a deduplicated insertion-ordered list.  Only
singleton sets are ever inspected element-wise by the consensus loop
(larger sets break it immediately), so the unspecified iteration order of
a real Python set is immaterial. -/
def setAdd {α : Type} [DecidableEq α] (s : List α) (x : α) : List α :=
  if s.contains x then s else s ++ [x]

/-- The state of the consensus loop: `groups` maps independence-group ids
to their key sets, `valueMap` maps keys back to the latest original
value. -/
structure GroupState where
  groups : List (String × List (String × PyVal))
  valueMap : List ((String × PyVal) × PyVal)

/-- The per-item consensus accumulation of `pi_safe` (context_projection.py
lines 321-371): initialize the group entry, skip NaN values (after the
group was initialized, as in the source), otherwise add the typed key to
the group set and record the original value. -/
def buildGroups (indep : List (String × String)) :
    List AnnLit → GroupState → GroupState
  | [], st => st
  | item :: rest, st =>
      let gid := groupIdOf indep item.source
      let groups1 :=
        if (alistGet st.groups gid).isSome then st.groups
        else st.groups ++ [(gid, [])]
      match groupKeyOf item.value with
      | none => buildGroups indep rest { st with groups := groups1 }
      | some key =>
          let groups2 :=
            groups1.map (fun p => if p.1 == gid then (p.1, setAdd p.2 key) else p)
          buildGroups indep rest
            { groups := groups2, valueMap := alistPut st.valueMap key item.value }

/-- The conflict check of `pi_safe` (lines 374-392): any group with more
than one key, or two groups with different keys, breaks consistency. -/
def checkGroupsLoop :
    List (String × List (String × PyVal)) → Option (String × PyVal) →
    Bool × Option (String × PyVal)
  | [], ref => (true, ref)
  | (_, keys) :: rest, ref =>
      if keys.length > 1 then (false, ref)
      else
        match keys with
        | [] => checkGroupsLoop rest ref
        | key :: _ =>
            match ref with
            | none => checkGroupsLoop rest (some key)
            | some r => if key = r then checkGroupsLoop rest ref else (false, ref)

/-- `pred.startswith("@")`. -/
def strStartsAt (s : String) : Bool :=
  match s.data with
  | [] => false
  | c :: _ => c == '@'

/-- `_ctx_has` (context_projection.py line 139) for a compiled tuple
path: drop a leading layer name on flat contexts, then walk the dict
spine. -/
def ctxWalk : JVal → List String → Bool
  | _, [] => true
  | .jobj fs, p :: rest =>
      match jobjGet fs p with
      | some v => ctxWalk v rest
      | none => false
  | _, _ :: _ => false

def ctxHasCompiled (ctx : JVal) (path : List String) : Bool :=
  let isStructured :=
    match ctx with
    | .jobj fs =>
        (jobjGet fs "root").isSome && (jobjGet fs "domain").isSome
          && (jobjGet fs "local").isSome
    | _ => false
  let path1 :=
    if !isStructured then
      match path with
      | p :: rest =>
          if p == "root" || p == "domain" || p == "local" then rest else path
      | [] => path
    else path
  ctxWalk ctx path1

/-- `_ctx_has` for a dot-separated string path (the slow branch):
explicit `C_root.`/`C_domain.`/`C_local.` prefixes select a layer, a
structured context searches local, then domain, then root, and a flat
context walks directly.  The recursion of the source is bounded here by
fuel; all theorems quantify over it. -/
def ctxHasStr : Nat → JVal → String → Bool
  | 0, _, _ => false
  | fuel + 1, ctx, path =>
      let isStructured :=
        match ctx with
        | .jobj fs =>
            (jobjGet fs "root").isSome && (jobjGet fs "domain").isSome
              && (jobjGet fs "local").isSome
        | _ => false
      let layerOf : String → JVal := fun name =>
        match ctx with
        | .jobj fs => (jobjGet fs name).getD (.jobj .nil)
        | _ => .jobj .nil
      if path.startsWith "C_root." then
        if isStructured then ctxHasStr fuel (layerOf "root") (path.drop 7)
        else ctxHasStr fuel ctx (path.drop 7)
      else if path.startsWith "C_domain." then
        if isStructured then ctxHasStr fuel (layerOf "domain") (path.drop 9)
        else ctxHasStr fuel ctx (path.drop 9)
      else if path.startsWith "C_local." then
        if isStructured then ctxHasStr fuel (layerOf "local") (path.drop 8)
        else ctxHasStr fuel ctx (path.drop 8)
      else if isStructured then
        ctxHasStr fuel (layerOf "local") path || ctxHasStr fuel (layerOf "domain") path
          || ctxHasStr fuel (layerOf "root") path
      else ctxWalk ctx (path.splitOn ".")

/-- `is_explained_literal` (context_projection.py line 205): non-literal
predicates pass; compiled requirements take precedence when present
(Python dict truthiness), then the string requirement map; empty or
missing requirement lists pass. -/
def isExplainedLiteral (fuel : Nat) (pred : String) (fullCtx : JVal)
    (reqMap : List (String × List String))
    (compiledReqs : List (String × List (List String))) : Bool :=
  if !strStartsAt pred then true
  else if !compiledReqs.isEmpty then
    match alistGet compiledReqs pred with
    | none => true
    | some [] => true
    | some reqs => reqs.all (ctxHasCompiled fullCtx)
  else if !reqMap.isEmpty then
    match alistGet reqMap pred with
    | none => true
    | some [] => true
    | some reqs => reqs.all (ctxHasStr fuel fullCtx)
  else true

/-- The per-predicate body of the `pi_safe` loop and the loop itself
(context_projection.py lines 282-431, `with_explanations=False` view):
explained-literal gate (only when a full context was provided), stable
descending sort, leading-edge window around the newest timestamp,
independence-group consensus, and promotion only of a consistent
non-empty reference value.  Conflicts and gate failures contribute
nothing for their predicate. -/
def piSafeLoop (fuel : Nat) (cfg : ProjConfig) (fullCtx : Option JVal)
    (reqMap : List (String × List String)) (indep : List (String × String))
    (compiledReqs : List (String × List (List String))) :
    List (String × List AnnLit) → List BareLit
  | [] => []
  | (pred, items) :: rest =>
      let tailRes := piSafeLoop fuel cfg fullCtx reqMap indep compiledReqs rest
      if items.isEmpty then tailRes
      else if (match fullCtx with
               | some fc => !isExplainedLiteral fuel pred fc reqMap compiledReqs
               | none => false) then tailRes
      else
        match sortDescTs items with
        | [] => tailRes
        | newest :: sortedRest =>
            let maxT := newest.timestamp
            let leadingEdge :=
              (newest :: sortedRest).filter
                (fun it => maxT - it.timestamp ≤ cfg.tauWindowMs)
            let st := buildGroups indep leadingEdge { groups := [], valueMap := [] }
            match checkGroupsLoop st.groups none with
            | (consistent, some refKey) =>
                if consistent then
                  match alistGet2 st.valueMap refKey with
                  | some refValue => ⟨pred, refValue⟩ :: tailRes
                  | none => tailRes
                else tailRes
            | (_, none) => tailRes
where
  alistGet2 : List ((String × PyVal) × PyVal) → (String × PyVal) → Option PyVal
    | [], _ => none
    | (k2, v) :: rest2, k => if k2 = k then some v else alistGet2 rest2 k

/-- `pi_safe` (context_projection.py line 238): filter candidates, group
by predicate, and run the per-predicate consensus loop. -/
def piSafe (fuel : Nat) (cRich : List AnnLit) (cfg : ProjConfig) (nowMs : Int)
    (authMap : Option (List (String × List String)))
    (fullCtx : Option JVal)
    (reqMap : List (String × List String))
    (indep : List (String × String))
    (compiledReqs : List (String × List (List String))) : List BareLit :=
  let candidates := cRich.filter (fun l => isCandidate l cfg nowMs authMap)
  piSafeLoop fuel cfg fullCtx reqMap indep compiledReqs (byPred candidates)

/-! ## Shared concrete instances for witnesses and counterexamples -/

/-- A degenerate float repr, usable wherever no float is serialized. -/
def fr0 : ℚ → String := fun _ => ""

/-- A float repr agreeing with Python on the single value 1.5. -/
def fr15 : ℚ → String := fun _ => "1.5"

/-- A context-manager state whose local layer holds an
underscore-prefixed key. -/
def cmUnderscore : CMState :=
  { root := .jobj .nil
    domain := .jobj .nil
    localLayer := .jobj (.cons "_x" (.jint 1) .nil)
    stalenessMs := 100
    maxShardSize := 0
    lastLocalUpdateMs := 0 }

/-- Projections out of `finalizeHashes` results: the action hash and the
event hash. -/
def fstHash (x : String × String × JVal) : String := x.1

def sndHash (x : String × String × JVal) : String := x.2.1

/-- A concrete whitespace predicate: ASCII space only (a restriction of
Python `str.isspace` concentrating on the character the claims need). -/
def wsSpace : Char → Bool := fun c => c == ' '

/-- A degenerate continuation for the runtime gates: a fixed non-error
result, standing in for the abstracted evaluation pipeline. -/
def restNull : String → Snapshot → RResult :=
  fun _ _ => { domain := "truth", errorCode := none, ctxHash := "", provenance := none }

/-- An empty-layer context manager state with a 100 ms staleness bound,
last updated at t0 = 0. -/
def cmEmpty : CMState :=
  { root := .jobj .nil
    domain := .jobj .nil
    localLayer := .jobj .nil
    stalenessMs := 100
    maxShardSize := 0
    lastLocalUpdateMs := 0 }

/-- An action object carrying a float field. -/
def floatAction : JVal :=
  .jobj (.cons "type" (.jstr "action")
    (.cons "verb" (.jstr "go")
      (.cons "target" (.jstr "@dock")
        (.cons "power" (.jfloat (3 / 2)) .nil))))

/-- An action proposal with outcome `status = "pending"`. -/
def actionPending : JVal :=
  .jobj (.cons "type" (.jstr "action")
    (.cons "verb" (.jstr "go")
      (.cons "target" (.jstr "@dock")
        (.cons "status" (.jstr "pending") .nil))))

/-- The same action proposal with outcome `status = "done"`. -/
def actionDone : JVal :=
  .jobj (.cons "type" (.jstr "action")
    (.cons "verb" (.jstr "go")
      (.cons "target" (.jstr "@dock")
        (.cons "status" (.jstr "done") .nil))))

mutual

/-- The validator's underscore-stripping normalization is the identity on
trees without underscore-prefixed keys. -/
theorem normUnderscore_id : ∀ v : JVal, noUnderscoreKeys v = true → normUnderscore v = v
  | .jnull, _ => rfl
  | .jbool _, _ => rfl
  | .jint _, _ => rfl
  | .jfloat _, _ => rfl
  | .jnan, _ => rfl
  | .jstr _, _ => rfl
  | .jarr xs, h => by
      simp only [noUnderscoreKeys] at h
      simp only [normUnderscore, normUnderscoreArr_id xs h]
  | .jobj fs, h => by
      simp only [noUnderscoreKeys] at h
      simp only [normUnderscore, normUnderscoreFields_id fs h]

theorem normUnderscoreArr_id : ∀ xs : JArr, noUnderscoreKeysArr xs = true → normUnderscoreArr xs = xs
  | .nil, _ => rfl
  | .cons v rest, h => by
      simp only [noUnderscoreKeysArr, Bool.and_eq_true] at h
      simp only [normUnderscoreArr, normUnderscore_id v h.1, normUnderscoreArr_id rest h.2]

theorem normUnderscoreFields_id : ∀ fs : JObj, noUnderscoreKeysFields fs = true → normUnderscoreFields fs = fs
  | .nil, _ => rfl
  | .cons k v rest, h => by
      simp only [noUnderscoreKeysFields, Bool.and_eq_true] at h
      have hk : strStartsUnderscore k = false := by
        cases hks : strStartsUnderscore k
        · rfl
        · rw [hks] at h; simp at h
      simp [normUnderscoreFields, hk, normUnderscore_id v h.1.2,
        normUnderscoreFields_id rest h.2]

end

/-! ## Claims C1 and C2 -/

/-- C2.  K3 truth tables, evaluated on the code.  The claim asks that
`false an x = false` and `true ur x = true` for *every* trit `x`
including undefined.  The first two conjuncts evaluate `_apply_binary_op`
at the failing inputs: when the undefined operand is the evaluator's own
`"undefined"` sentinel string (the value that `vek`/`shi` return for a
missing key), the early undefined-propagation return at lines 1954-1957
fires *before* the K3 `an`/`ur` branches, and both expressions evaluate
to `"undefined"` — contradicting the claim, the comment right above the
`an` branch ("False AND anything = False (including Undefined)") and the
K3 assertions of tests/test_safety_integration.py.  The remaining
conjuncts show that the `nai` table conjuncts of the claim do hold, and
that the `an`/`ur` dominance laws do hold when the undefined operand is
represented as Python `None` (the representation the test exercises). -/
theorem k3_tables_on_code :
    applyBinaryOp "strict" (.vdict .nil) (.vbool false) .an undefinedVal = undefinedVal ∧
    applyBinaryOp "strict" (.vdict .nil) (.vbool true) .ur undefinedVal = undefinedVal ∧
    applyUnaryNeg .nai (.vdict .nil) undefinedVal = undefinedVal ∧
    applyUnaryNeg .nai (.vdict .nil) (applyUnaryNeg .nai (.vdict .nil) (.vbool true)) = .vbool true ∧
    applyBinaryOp "strict" (.vdict .nil) (.vbool false) .an .vnone = .vbool false ∧
    applyBinaryOp "strict" (.vdict .nil) (.vbool true) .ur .vnone = .vbool true ∧
    applyBinaryOp "strict" (.vdict .nil) (.vbool false) .ur .vnone = undefinedVal := by
  decide

/-- C1.  Guard (`khi`) safety.  For every mode and action block, if the
guard condition evaluates to false (`False`) or to undefined (the
`"undefined"` sentinel, `None`, or an undefined domain object — the
representations a strict evaluation can produce), `_handle_conditional`
returns `"undefined"`, the wrapped result has domain `"undefined"` and
contains no action object anywhere; only a true condition returns the
attached consequence, and in strict mode a consequence that is not an
action or list of actions yields an `ERR_GUARD_TYPE` error instead. -/
theorem guard_khi_safety (mode : String) (cond block : Val) :
    ((cond = .vbool false ∨ cond = undefinedVal ∨ cond = .vnone ∨ isUndefDict cond = true) →
      handleConditional mode cond block = undefinedVal ∧
      resultDomain (wrapDomain (handleConditional mode cond block)) = some "undefined" ∧
      containsAction (wrapDomain (handleConditional mode cond block)) = false) ∧
    (cond = .vbool true →
      (isValidActionStructure block = true →
        handleConditional mode cond block = block) ∧
      (mode = "strict" → isValidActionStructure block = false →
        handleConditional mode cond block =
          errGuardType "Right-hand side of khi must be an action or list of actions in strict mode")) := by
  constructor
  · intro hc
    have hundef : handleConditional mode cond block = undefinedVal := by
      rcases hc with h | h | h | h
      · subst h
        simp [handleConditional, pyEqUndefStr, isNone, toTrit]
      · subst h
        simp [handleConditional, undefinedVal, pyEqUndefStr, isNone, toTrit]
      · subst h
        simp [handleConditional, pyEqUndefStr, isNone, toTrit]
      · cases cond with
        | vdict fs =>
            simp only [isUndefDict] at h
            rcases hd : vGet fs "domain" with _ | v
            · rw [hd] at h; simp at h
            · rw [hd] at h
              cases v with
              | vstr s =>
                  simp only [beq_iff_eq] at h
                  simp only [handleConditional, pyEqUndefStr, isNone, toTrit, hd, h]
                  simp
              | vU => simp at h
              | vnone => simp at h
              | vbool b => simp at h
              | vint n => simp at h
              | vlist xs => simp at h
              | vdict gs => simp at h
        | vU => simp [isUndefDict] at h
        | vnone => simp [isUndefDict] at h
        | vbool b => simp [isUndefDict] at h
        | vint n => simp [isUndefDict] at h
        | vstr s => simp [isUndefDict] at h
        | vlist xs => simp [isUndefDict] at h
    refine ⟨hundef, ?_, ?_⟩
    · rw [hundef]; decide
    · rw [hundef]; decide
  · intro hc
    subst hc
    constructor
    · intro hv
      simp [handleConditional, pyEqUndefStr, isNone, toTrit, hv]
    · intro hm hv
      subst hm
      simp [handleConditional, pyEqUndefStr, isNone, toTrit, hv]

/-- Witness for C1 at concrete inputs: a strict-mode guard over a false
condition with a well-formed action consequence evaluates to
`"undefined"` with no action in the result tree, and the same guard over
a true condition returns the action block. -/
theorem guard_khi_safety_witness :
    handleConditional "strict" (.vbool false)
        (.vdict (.cons "type" (.vstr "action") (.cons "verb" (.vstr "act") .nil))) = undefinedVal ∧
    handleConditional "strict" (.vbool true)
        (.vdict (.cons "type" (.vstr "action") (.cons "verb" (.vstr "act") .nil))) =
      .vdict (.cons "type" (.vstr "action") (.cons "verb" (.vstr "act") .nil)) := by
  constructor
  · exact ((guard_khi_safety "strict" (.vbool false)
      (.vdict (.cons "type" (.vstr "action") (.cons "verb" (.vstr "act") .nil)))).1
      (Or.inl rfl)).1
  · exact ((guard_khi_safety "strict" (.vbool true)
      (.vdict (.cons "type" (.vstr "action") (.cons "verb" (.vstr "act") .nil)))).2
      rfl).1 (by decide)

/-- C7.  Strict float ban for hash-bearing serialization, evaluated on
the code.  The first two conjuncts confirm the first half of the claim:
`canonical_bytes` (the strict mode) rejects `{"x": 1.5}` with the
float-ban `ValueError`, while non-strict `canonical_json` serializes it.
The last two conjuncts refute the second half: `compute_action_hash`
(provenance.py line 167) serializes with `canonical_json` *without*
`reject_floats`, so hashing an action object carrying a float *succeeds*
— its hashed payload contains the float — although canonical.py's own
docstring mandates `canonical_bytes` ("Use canonical_bytes() for
provenance/action hashing which enforces the float ban"). -/
theorem strict_float_ban_on_code :
    canonicalBytes fr15 (.jobj (.cons "x" (.jfloat (3 / 2)) .nil)) = .error .floatNotAllowed ∧
    canonicalJson fr15 false (.jobj (.cons "x" (.jfloat (3 / 2)) .nil)) = .ok "\x7b\"x\":1.5\x7d" ∧
    (computeActionHash 2 id fr15 floatAction).isOk = true ∧
    actionHashPayload 2 id fr15 floatAction =
      .ok "\x7b\"power\":1.5,\"target\":\"@dock\",\"type\":\"action\",\"verb\":\"go\"\x7d" := by
  decide

/-- C4.  Provenance hash exclusivity.  Through the composed pipeline —
`NoeRuntime.evaluate` attaching `prov_data` (action hash only for the
action domain, decision hash otherwise, no provenance at all for
error/undefined) and `build_provenance_record` enforcing blocked-path
integrity — the record carries exactly one of action_hash/decision_hash
for executed or decided domains, and neither of them (with a null
provenance_hash) for error or undefined results. -/
theorem provenance_hash_exclusivity (domain : String) (parent : Option String)
    (execReqHash childHash decisionHashv provPayloadHash snapDomainHash snapContextHash : String) :
    (domain ≠ "error" → domain ≠ "undefined" →
      ((evaluateWithProvenance domain parent execReqHash childHash decisionHashv
          provPayloadHash snapDomainHash snapContextHash).actionHash.isSome = true ∧
       (evaluateWithProvenance domain parent execReqHash childHash decisionHashv
          provPayloadHash snapDomainHash snapContextHash).decisionHash = none ∧
       domain = "action") ∨
      ((evaluateWithProvenance domain parent execReqHash childHash decisionHashv
          provPayloadHash snapDomainHash snapContextHash).actionHash = none ∧
       (evaluateWithProvenance domain parent execReqHash childHash decisionHashv
          provPayloadHash snapDomainHash snapContextHash).decisionHash.isSome = true ∧
       domain ≠ "action")) ∧
    (domain = "error" ∨ domain = "undefined" →
      (evaluateWithProvenance domain parent execReqHash childHash decisionHashv
          provPayloadHash snapDomainHash snapContextHash).actionHash = none ∧
      (evaluateWithProvenance domain parent execReqHash childHash decisionHashv
          provPayloadHash snapDomainHash snapContextHash).decisionHash = none ∧
      (evaluateWithProvenance domain parent execReqHash childHash decisionHashv
          provPayloadHash snapDomainHash snapContextHash).provenanceHash = none) := by
  constructor
  · intro he hu
    by_cases ha : domain = "action"
    · left
      simp [evaluateWithProvenance, runtimeProvData, buildProvenanceRecord, he, hu, ha]
    · right
      simp [evaluateWithProvenance, runtimeProvData, buildProvenanceRecord, he, hu, ha]
  · intro hb
    rcases hb with hb | hb <;>
      simp [evaluateWithProvenance, runtimeProvData, buildProvenanceRecord, hb]

/-- Witness for C4 at the three kinds of domains: an action result
carries only the action hash, a truth result only the decision hash, an
undefined result neither and a null provenance hash. -/
theorem provenance_hash_exclusivity_witness :
    (evaluateWithProvenance "action" none "e" "c" "d" "p" "dh" "ch").actionHash = some "e" ∧
    (evaluateWithProvenance "truth" none "e" "c" "d" "p" "dh" "ch").decisionHash = some "d" ∧
    (evaluateWithProvenance "undefined" none "e" "c" "d" "p" "dh" "ch").provenanceHash = none := by
  refine ⟨?_, ?_, ?_⟩
  · have h := (provenance_hash_exclusivity "action" none "e" "c" "d" "p" "dh" "ch").1
      (by decide) (by decide)
    rcases h with ⟨hsome, _, _⟩ | ⟨_, _, hne⟩
    · revert hsome; decide
    · exact absurd rfl hne
  · have h := (provenance_hash_exclusivity "truth" none "e" "c" "d" "p" "dh" "ch").1
      (by decide) (by decide)
    rcases h with ⟨_, _, hact⟩ | ⟨_, hsome, _⟩
    · exact absurd hact (by decide)
    · revert hsome; decide
  · exact ((provenance_hash_exclusivity "undefined" none "e" "c" "d" "p" "dh" "ch").2
      (Or.inr rfl)).2.2

/-- C5 (amended).  Composite context hash.  For every digest function,
float repr and context-manager state whose snapshot succeeds, the
snapshot's `context_hash` is the hash of the concatenation of the three
per-layer digest *bytes* in root, domain, local order; and — provided no
dict key anywhere in the three layers starts with an underscore — it
equals the total computed by the validator's `compute_context_hashes` on
the snapshot's structured export.  (The claim's parenthetical "including
contexts containing underscore-prefixed keys" is false: the validator's
`_canonical_json` strips underscore-prefixed keys before hashing and the
manager's `_hash_json_digest` does not; see the counterexample.) -/
theorem computeContextHashes_structured (sha : List Nat → List Nat) (fr : ℚ → String)
    (r d l : JVal) (sr sd sl : String)
    (h1 : canonicalJson fr false (normUnderscore r) = .ok sr)
    (h2 : canonicalJson fr false (normUnderscore d) = .ok sd)
    (h3 : canonicalJson fr false (normUnderscore l) = .ok sl) :
    computeContextHashes sha fr
        (.jobj (.cons "root" r (.cons "domain" d (.cons "local" l .nil)))) =
      .ok { rootHex := hexOfBytes (sha (utf8Str sr))
            domainHex := hexOfBytes (sha (utf8Str sd))
            localHex := hexOfBytes (sha (utf8Str sl))
            total := hexOfBytes (sha (sha (utf8Str sr) ++ sha (utf8Str sd) ++ sha (utf8Str sl))) } := by
  simp [computeContextHashes, jobjGet, h1, h2, h3]

theorem composite_context_hash (sha : List Nat → List Nat) (fr : ℚ → String)
    (st : CMState) (nowMs : Int) (snap : Snapshot)
    (hsnap : snapshotCM sha fr st nowMs = .ok snap)
    (hr : noUnderscoreKeys st.root = true)
    (hd : noUnderscoreKeys st.domain = true)
    (hl : noUnderscoreKeys st.localLayer = true) :
    (∀ rd rh dd dh ld lh,
      hashJsonDigest sha fr st.maxShardSize st.root = .ok (rd, rh) →
      hashJsonDigest sha fr st.maxShardSize st.domain = .ok (dd, dh) →
      hashJsonDigest sha fr st.maxShardSize st.localLayer = .ok (ld, lh) →
      snap.contextHash = hexOfBytes (sha (rd ++ dd ++ ld))) ∧
    (computeContextHashes sha fr snap.structured).map CtxHashes.total = .ok snap.contextHash := by
  unfold snapshotCM at hsnap
  cases h1 : hashJsonDigest sha fr st.maxShardSize st.root with
  | error e => rw [h1] at hsnap; exact absurd hsnap (by simp)
  | ok p1 =>
  cases h2 : hashJsonDigest sha fr st.maxShardSize st.domain with
  | error e => rw [h1, h2] at hsnap; exact absurd hsnap (by simp)
  | ok p2 =>
  cases h3 : hashJsonDigest sha fr st.maxShardSize st.localLayer with
  | error e => rw [h1, h2, h3] at hsnap; exact absurd hsnap (by simp)
  | ok p3 =>
  obtain ⟨rd0, rh0⟩ := p1
  obtain ⟨dd0, dh0⟩ := p2
  obtain ⟨ld0, lh0⟩ := p3
  rw [h1, h2, h3] at hsnap
  simp only [Except.ok.injEq] at hsnap
  subst hsnap
  constructor
  · intro rd rh dd dh ld lh hh1 hh2 hh3
    simp only [Except.ok.injEq, Prod.mk.injEq] at hh1 hh2 hh3
    rw [← hh1.1, ← hh2.1, ← hh3.1]
  · -- relate the validator serialization to the manager serialization
    unfold hashJsonDigest at h1 h2 h3
    cases hc1 : canonicalJson fr false st.root with
    | error e => simp [hc1] at h1
    | ok sr =>
    cases hc2 : canonicalJson fr false st.domain with
    | error e => simp [hc2] at h2
    | ok sd =>
    cases hc3 : canonicalJson fr false st.localLayer with
    | error e => simp [hc3] at h3
    | ok sl =>
    rw [hc1] at h1; rw [hc2] at h2; rw [hc3] at h3
    simp only [] at h1 h2 h3
    split at h1
    · simp at h1
    · split at h2
      · simp at h2
      · split at h3
        · simp at h3
        · simp only [Except.ok.injEq, Prod.mk.injEq] at h1 h2 h3
          have hc1a : canonicalJson fr false (normUnderscore st.root) = .ok sr := by
            rw [normUnderscore_id st.root hr]; exact hc1
          have hc2a : canonicalJson fr false (normUnderscore st.domain) = .ok sd := by
            rw [normUnderscore_id st.domain hd]; exact hc2
          have hc3a : canonicalJson fr false (normUnderscore st.localLayer) = .ok sl := by
            rw [normUnderscore_id st.localLayer hl]; exact hc3
          rw [computeContextHashes_structured sha fr st.root st.domain st.localLayer
            sr sd sl hc1a hc2a hc3a]
          simp [h1.1, h2.1, h3.1, Except.map]

/-- Witness for C5 at a concrete underscore-free state: manager and
validator totals agree. -/
theorem composite_context_hash_witness :
    (snapshotCM id fr0
        { root := .jobj .nil, domain := .jobj .nil,
          localLayer := .jobj (.cons "x" (.jint 1) .nil),
          stalenessMs := 100, maxShardSize := 0, lastLocalUpdateMs := 0 } 0).map
        Snapshot.contextHash = .ok "7b7d7b7d7b2278223a317d" ∧
    (computeContextHashes id fr0
        (.jobj (.cons "root" (.jobj .nil)
          (.cons "domain" (.jobj .nil)
            (.cons "local" (.jobj (.cons "x" (.jint 1) .nil)) .nil))))).map
        CtxHashes.total = .ok "7b7d7b7d7b2278223a317d" := by
  have h := composite_context_hash id fr0
    { root := .jobj .nil, domain := .jobj .nil,
      localLayer := .jobj (.cons "x" (.jint 1) .nil),
      stalenessMs := 100, maxShardSize := 0, lastLocalUpdateMs := 0 } 0
    { rootHash := "7b7d", domainHash := "7b7d", localHash := "7b2278223a317d",
      contextHash := "7b7d7b7d7b2278223a317d", timestampMs := 0, isStale := false,
      structured := .jobj (.cons "root" (.jobj .nil)
        (.cons "domain" (.jobj .nil)
          (.cons "local" (.jobj (.cons "x" (.jint 1) .nil)) .nil))) }
    (by decide) (by decide) (by decide) (by decide)
  refine ⟨by decide, ?_⟩
  exact h.2

/-- C5 counterexample.  At the concrete state whose local layer is
`{"_x": 1}` (root and domain empty), with the identity digest function,
the manager snapshot total and the validator total differ, and already
the serialized local-layer byte strings differ (the validator hashes
`{}` where the manager hashes `{"_x":1}`), so the genuine SHA-256 totals
can only agree on a SHA-256 collision: the claim's "including contexts
containing underscore-prefixed keys" is false on the code. -/
theorem composite_context_hash_mismatch :
    (snapshotCM id fr0 cmUnderscore 0).map Snapshot.contextHash =
      .ok "7b7d7b7d7b225f78223a317d" ∧
    (snapshotCM id fr0 cmUnderscore 0).map Snapshot.structured =
      .ok (.jobj (.cons "root" (.jobj .nil)
        (.cons "domain" (.jobj .nil)
          (.cons "local" (.jobj (.cons "_x" (.jint 1) .nil)) .nil)))) ∧
    (computeContextHashes id fr0
        (.jobj (.cons "root" (.jobj .nil)
          (.cons "domain" (.jobj .nil)
            (.cons "local" (.jobj (.cons "_x" (.jint 1) .nil)) .nil))))).map
        CtxHashes.total = .ok "7b7d7b7d7b7d" ∧
    ("7b7d7b7d7b225f78223a317d" : String) ≠ "7b7d7b7d7b7d" ∧
    canonicalJson fr0 false (normUnderscore (.jobj (.cons "_x" (.jint 1) .nil))) ≠
      canonicalJson fr0 false (.jobj (.cons "_x" (.jint 1) .nil)) := by
  decide

/-- C9.  `update_local` atomicity.  For every fuel, digest function,
float repr and state: a dict delta whose deep-merge into the current
local layer serializes beyond `max_shard_size` makes `update_local`
raise `ContextTooLargeError` and leaves the manager's state unchanged —
the local layer and the last-local-update timestamp are those from before
the call, so a snapshot taken at any time after the failed call equals
(hashes, staleness and all) the snapshot taken at that time before it. -/
theorem update_local_atomic (fuel : Nat) (sha : List Nat → List Nat) (fr : ℚ → String)
    (st : CMState) (df : JObj) (nowMs : Int) (newLocal : JVal) (s : String)
    (hmax : 0 < st.maxShardSize)
    (hmerge : deepMergeFuel fuel st.localLayer (.jobj df) = some newLocal)
    (hser : canonicalJson fr false newLocal = .ok s)
    (hbig : st.maxShardSize < (utf8Str s).length) :
    updateLocal fuel fr st (.jobj df) nowMs = (.error .contextTooLarge, st) ∧
    ∀ now2, snapshotCM sha fr (updateLocal fuel fr st (.jobj df) nowMs).2 now2 =
      snapshotCM sha fr st now2 := by
  have h1 : updateLocal fuel fr st (.jobj df) nowMs = (.error .contextTooLarge, st) := by
    simp [updateLocal, hmerge, hser, hmax, hbig]
  exact ⟨h1, fun now2 => by rw [h1]⟩

/-- Witness for C9: a one-byte shard limit, an empty local layer and the
delta `{"a": 1}` (which serializes to 7 bytes) — the update fails closed
with `ContextTooLarge` and the state is returned unchanged. -/
theorem update_local_atomic_witness :
    updateLocal 3 fr0
      { root := .jobj .nil, domain := .jobj .nil, localLayer := .jobj .nil,
        stalenessMs := 100, maxShardSize := 1, lastLocalUpdateMs := 0 }
      (.jobj (.cons "a" (.jint 1) .nil)) 5 =
      (.error .contextTooLarge,
        { root := .jobj .nil, domain := .jobj .nil, localLayer := .jobj .nil,
          stalenessMs := 100, maxShardSize := 1, lastLocalUpdateMs := 0 }) :=
  (update_local_atomic 3 id fr0
    { root := .jobj .nil, domain := .jobj .nil, localLayer := .jobj .nil,
      stalenessMs := 100, maxShardSize := 1, lastLocalUpdateMs := 0 }
    (.cons "a" (.jint 1) .nil) 5 (.jobj (.cons "a" (.jint 1) .nil)) "\x7b\"a\":1\x7d"
    (by decide) (by decide) (by decide) (by decide)).1

/-- Every word produced by the whitespace splitter is nonempty and free
of whitespace characters (given a whitespace-free accumulator). -/
theorem splitWsAux_wordOk (ws : Char → Bool) :
    ∀ (s acc : List Char), (∀ c ∈ acc, ws c = false) →
      ∀ w ∈ splitWsAux ws s acc, w ≠ [] ∧ ∀ c ∈ w, ws c = false
  | [], acc, hacc, w, hw => by
      unfold splitWsAux at hw
      by_cases he : acc.isEmpty = true
      · rw [if_pos he] at hw
        simp at hw
      · rw [if_neg he] at hw
        have hw2 : w = acc.reverse := by simpa using hw
        subst hw2
        refine ⟨?_, ?_⟩
        · intro habs
          exact he (by simp [List.isEmpty_iff, ← List.reverse_eq_nil_iff, habs])
        · intro c hc
          exact hacc c (List.mem_reverse.mp hc)
  | c :: rest, acc, hacc, w, hw => by
      unfold splitWsAux at hw
      by_cases hc : ws c = true
      · rw [if_pos hc] at hw
        by_cases he : acc.isEmpty = true
        · rw [if_pos he] at hw
          exact splitWsAux_wordOk ws rest [] (by simp) w hw
        · rw [if_neg he] at hw
          rcases List.mem_cons.mp hw with h | h
          · subst h
            refine ⟨?_, ?_⟩
            · intro habs
              exact he (by simp [List.isEmpty_iff, ← List.reverse_eq_nil_iff, habs])
            · intro c2 hc2
              exact hacc c2 (List.mem_reverse.mp hc2)
          · exact splitWsAux_wordOk ws rest [] (by simp) w h
      · rw [if_neg hc] at hw
        refine splitWsAux_wordOk ws rest (c :: acc) ?_ w hw
        intro c2 hc2
        rcases List.mem_cons.mp hc2 with h | h
        · subst h
          exact Bool.not_eq_true (ws c2) ▸ hc
        · exact hacc c2 h

/-- Splitting a whitespace-free word followed by a tail pushes the word
onto the accumulator. -/
theorem splitWsAux_append_word (ws : Char → Bool) :
    ∀ (w t acc : List Char), (∀ c ∈ w, ws c = false) →
      splitWsAux ws (w ++ t) acc = splitWsAux ws t (w.reverse ++ acc)
  | [], t, acc, _ => by simp
  | c :: w, t, acc, h => by
      have hc : ws c = false := h c (by simp)
      show splitWsAux ws (c :: (w ++ t)) acc = _
      simp only [splitWsAux, hc, Bool.false_eq_true, if_false]
      rw [splitWsAux_append_word ws w t (c :: acc) (fun c2 hc2 => h c2 (by simp [hc2]))]
      simp

/-- Splitting the space-joined list of nonempty whitespace-free words
recovers the words: whitespace collapsing is a projection. -/
theorem split_join (ws : Char → Bool) (hws : ws ' ' = true) :
    ∀ words : List (List Char),
      (∀ w ∈ words, w ≠ [] ∧ ∀ c ∈ w, ws c = false) →
      splitWsAux ws (joinSpace words) [] = words
  | [], _ => by simp [joinSpace, splitWsAux]
  | [w], h => by
      have hw := h w (by simp)
      have hb := splitWsAux_append_word ws w [] [] hw.2
      rw [List.append_nil, List.append_nil] at hb
      show splitWsAux ws w [] = [w]
      rw [hb]
      simp only [splitWsAux]
      rw [if_neg (by simp [List.isEmpty_iff, List.reverse_eq_nil_iff]; exact hw.1)]
      simp
  | w1 :: w2 :: rest, h => by
      have h1 := h w1 (by simp)
      show splitWsAux ws (w1 ++ (' ' :: joinSpace (w2 :: rest))) [] = w1 :: w2 :: rest
      rw [splitWsAux_append_word ws w1 _ [] h1.2]
      unfold splitWsAux
      rw [hws]
      simp only [if_true]
      rw [if_neg (by simp [List.isEmpty_iff, List.reverse_eq_nil_iff]; exact h1.1)]
      rw [split_join ws hws (w2 :: rest) (fun w hw => h w (by simp [hw]))]
      simp

/-- Whitespace collapsing is idempotent. -/
theorem collapseWs_idem (ws : Char → Bool) (hws : ws ' ' = true) (s : String) :
    collapseWs ws (collapseWs ws s) = collapseWs ws s := by
  unfold collapseWs pySplitWs
  congr 1
  have hdata : (String.mk (joinSpace (splitWsAux ws s.data []))).data =
      joinSpace (splitWsAux ws s.data []) := rfl
  rw [hdata]
  exact congrArg joinSpace
    (split_join ws hws _ (fun w hw => splitWsAux_wordOk ws s.data [] (by simp) w hw))

/-- `canonicalize_chain` is idempotent, given the two Unicode facts about
NFKC taken as hypotheses (see the C10 theorem below). -/
theorem canonicalizeChain_idem (nfkc : String → String) (ws : Char → Bool)
    (hws : ws ' ' = true)
    (hn : ∀ s, nfkc (collapseWs ws (nfkc s)) = collapseWs ws (nfkc s)) (s : String) :
    canonicalizeChain nfkc ws (canonicalizeChain nfkc ws s) =
      canonicalizeChain nfkc ws s := by
  unfold canonicalizeChain
  rw [hn s]
  exact collapseWs_idem ws hws (nfkc s)

/-- C10.  Chain canonicalization idempotence.  The whitespace-collapsing
stage is idempotent unconditionally (proved above from the splitter);
composed with NFKC it is idempotent under the two documented Unicode
facts taken as hypotheses on the parameter `nfkc`: `ws ' ' = true`
(U+0020 is whitespace) and that an NFKC-normalized string stays
normalized after its whitespace runs are collapsed to single spaces
(U+0020 is a starter that neither composes nor reorders across, UAX #15).
Consequently, in `NoeRuntime.evaluate` — which canonicalizes first and
then re-checks canonicalization on the already-canonical chain — the
`ERR_CANONICALIZATION_NON_IDEMPOTENT` defensive branch can never fire:
for every input, the runtime result never carries that error code
(provided the abstracted downstream continuation does not produce it
itself, which the real pipeline cannot: the code appears only in this
branch). -/
theorem canonicalization_idempotent (nfkc : String → String) (ws : Char → Bool)
    (hws : ws ' ' = true)
    (hn : ∀ s, nfkc (collapseWs ws (nfkc s)) = collapseWs ws (nfkc s)) :
    (∀ s, canonicalizeChain nfkc ws (canonicalizeChain nfkc ws s) =
      canonicalizeChain nfkc ws s) ∧
    (∀ (sha : List Nat → List Nat) (fr : ℚ → String) (strictMode : Bool)
        (expectedDomainHash : Option String) (cm : CMState) (nowMs : Int)
        (chainText : String) (rest : String → Snapshot → RResult),
      (∀ c snap, (rest c snap).errorCode ≠ some "ERR_CANONICALIZATION_NON_IDEMPOTENT") →
      (runtimeEvaluateGates sha fr nfkc ws strictMode expectedDomainHash cm nowMs
          chainText rest).errorCode ≠ some "ERR_CANONICALIZATION_NON_IDEMPOTENT") := by
  have hidem := canonicalizeChain_idem nfkc ws hws hn
  refine ⟨hidem, ?_⟩
  intro sha fr strictMode expectedDomainHash cm nowMs chainText rest hrest
  unfold runtimeEvaluateGates
  cases hs : snapshotCM sha fr cm nowMs with
  | error e => cases e <;> simp [ctxErrCode]
  | ok snap =>
      dsimp only
      have hcanon : (canonicalizeChain nfkc ws (canonicalizeChain nfkc ws chainText) !=
          canonicalizeChain nfkc ws chainText) = false := by
        simp [hidem chainText]
      rw [hcanon]
      simp only [Bool.false_eq_true, if_false]
      by_cases hcfg : (match expectedDomainHash with
        | some h => snap.domainHash != h
        | none => false) = true
      · rw [if_pos hcfg]; simp
      · rw [if_neg hcfg]
        by_cases hstale : (snap.isStale && strictMode) = true
        · rw [if_pos hstale]; simp
        · rw [if_neg hstale]
          exact hrest _ snap

/-- Witness for C10 at a concrete canonicalizer (identity NFKC, ASCII
space whitespace) and a concrete doubly-spaced chain. -/
theorem canonicalization_idempotent_witness :
    canonicalizeChain id wsSpace (canonicalizeChain id wsSpace "shi  @ok   khi x") =
      canonicalizeChain id wsSpace "shi  @ok   khi x" :=
  (canonicalization_idempotent id wsSpace (by decide) (fun _ => rfl)).1 "shi  @ok   khi x"

/-- Any successful snapshot reports staleness exactly as
`now - last_local_update > staleness_ms`. -/
theorem snapshotCM_isStale (sha : List Nat → List Nat) (fr : ℚ → String)
    (st : CMState) (nowMs : Int) (snap : Snapshot)
    (hsnap : snapshotCM sha fr st nowMs = .ok snap) :
    snap.isStale = decide (nowMs - st.lastLocalUpdateMs > st.stalenessMs) := by
  unfold snapshotCM at hsnap
  cases h1 : hashJsonDigest sha fr st.maxShardSize st.root with
  | error e => rw [h1] at hsnap; exact absurd hsnap (by simp)
  | ok p1 =>
  cases h2 : hashJsonDigest sha fr st.maxShardSize st.domain with
  | error e => rw [h1, h2] at hsnap; exact absurd hsnap (by simp)
  | ok p2 =>
  cases h3 : hashJsonDigest sha fr st.maxShardSize st.localLayer with
  | error e => rw [h1, h2, h3] at hsnap; exact absurd hsnap (by simp)
  | ok p3 =>
  obtain ⟨rd0, rh0⟩ := p1
  obtain ⟨dd0, dh0⟩ := p2
  obtain ⟨ld0, lh0⟩ := p3
  rw [h1, h2, h3] at hsnap
  simp only [Except.ok.injEq] at hsnap
  subst hsnap
  rfl

/-- C8.  Staleness fail-closed.  For a manager whose local layer was last
updated at `t0` with staleness bound `B`, a snapshot taken at
`t0 + B + 1` has `is_stale = true`, and a strict-mode evaluation at that
time returns the `ERR_CONTEXT_STALE` error result for *every* chain and
every downstream continuation — the evaluator behind the gate is never
consulted.  (`hws`/`hn` are the Unicode hypotheses of C10, needed because
the canonicalization self-check precedes the staleness gate; the runtime
is taken without a domain pack, i.e. `expected_domain_hash = None`.) -/
theorem staleness_fail_closed (sha : List Nat → List Nat) (fr : ℚ → String)
    (nfkc : String → String) (ws : Char → Bool)
    (hws : ws ' ' = true)
    (hn : ∀ s, nfkc (collapseWs ws (nfkc s)) = collapseWs ws (nfkc s))
    (cm : CMState) (t0 B : Int)
    (ht : cm.lastLocalUpdateMs = t0) (hB : cm.stalenessMs = B)
    (snap : Snapshot) (hsnap : snapshotCM sha fr cm (t0 + B + 1) = .ok snap) :
    snap.isStale = true ∧
    ∀ (chainText : String) (rest : String → Snapshot → RResult),
      runtimeEvaluateGates sha fr nfkc ws true none cm (t0 + B + 1) chainText rest =
        { domain := "error", errorCode := some "ERR_CONTEXT_STALE",
          ctxHash := snap.contextHash, provenance := none } := by
  have hstale : snap.isStale = true := by
    rw [snapshotCM_isStale sha fr cm (t0 + B + 1) snap hsnap, ht, hB]
    simp only [decide_eq_true_eq]
    omega
  refine ⟨hstale, ?_⟩
  intro chainText rest
  unfold runtimeEvaluateGates
  rw [hsnap]
  dsimp only
  have hcanon : (canonicalizeChain nfkc ws (canonicalizeChain nfkc ws chainText) !=
      canonicalizeChain nfkc ws chainText) = false := by
    simp [canonicalizeChain_idem nfkc ws hws hn chainText]
  rw [hcanon]
  simp only [Bool.false_eq_true, if_false]
  rw [hstale]
  simp

/-- Witness for C8 at a concrete state: staleness bound 100 ms, last
local update at t0 = 0, snapshot and strict evaluation at 101 ms — the
result is the `ERR_CONTEXT_STALE` error carrying the snapshot's context
hash, with no provenance. -/
theorem staleness_fail_closed_witness :
    runtimeEvaluateGates id fr0 id wsSpace true none cmEmpty (0 + 100 + 1)
        "shi @ok" restNull =
      { domain := "error", errorCode := some "ERR_CONTEXT_STALE",
        ctxHash := "7b7d7b7d7b7d", provenance := none } :=
  (staleness_fail_closed id fr0 id wsSpace (by decide) (fun _ => rfl) cmEmpty 0 100
    rfl rfl
    { rootHash := "7b7d", domainHash := "7b7d", localHash := "7b7d",
      contextHash := "7b7d7b7d7b7d", timestampMs := 0 + 100 + 1, isStale := true,
      structured := .jobj (.cons "root" (.jobj .nil)
        (.cons "domain" (.jobj .nil) (.cons "local" (.jobj .nil) .nil))) }
    (by decide)).2 "shi @ok" restNull

/-- Setting one key leaves lookups of other keys unchanged. -/
theorem jobjGet_set_ne : ∀ (fs : JObj) (k k2 : String) (v : JVal), ¬k = k2 →
    jobjGet (jobjSet fs k v) k2 = jobjGet fs k2
  | .nil, k, k2, v, h => by simp [jobjSet, jobjGet, h]
  | .cons k3 v3 rest, k, k2, v, h => by
      simp only [jobjSet]
      by_cases h3 : (k3 == k) = true
      · rw [if_pos h3]
        have h32 : (k3 == k2) = false := by
          simp only [beq_iff_eq] at h3 ⊢
          subst h3
          simpa using h
        simp [jobjGet, h32]
      · rw [if_neg h3]
        simp only [jobjGet]
        by_cases h32 : (k3 == k2) = true
        · simp [h32]
        · simp [h32, jobjGet_set_ne rest k k2 v h]

/-- The include-outcome flag and the pointer-semantics key are untouched
by setting an outcome field. -/
theorem includeOutcomeFlag_set_ne (fs : JObj) (k : String) (v : JVal)
    (h : ¬k = "_include_outcome_in_hash") :
    includeOutcomeFlag (jobjSet fs k v) = includeOutcomeFlag fs := by
  unfold includeOutcomeFlag
  rw [jobjGet_set_ne fs k "_include_outcome_in_hash" v h]

theorem normalizeExcludedKeys_set_ne (fs : JObj) (k : String) (v : JVal)
    (h1 : ¬k = "child_action_hash") (h2 : ¬k = "_include_outcome_in_hash") :
    normalizeExcludedKeys (jobjSet fs k v) = normalizeExcludedKeys fs := by
  unfold normalizeExcludedKeys
  rw [jobjGet_set_ne fs k "child_action_hash" v h1,
    includeOutcomeFlag_set_ne fs k v h2]

/-- Filtering out an excluded key: setting that key changes nothing in
the filtered field list. -/
theorem normalizeFields_set_excluded : ∀ (excl : List String) (fs : JObj)
    (f : String) (v : JVal), excl.contains f = true →
    normalizeFields excl (jobjSet fs f v) = normalizeFields excl fs
  | excl, .nil, f, v, hf => by
      have hor : (strStartsUnderscore f || excl.contains f) = true := by
        rw [hf]; simp
      simp only [jobjSet, normalizeFields]
      rw [if_pos hor]
  | excl, .cons k2 v2 rest, f, v, hf => by
      simp only [jobjSet]
      by_cases h2 : (k2 == f) = true
      · rw [if_pos h2]
        have h2' : k2 = f := by simpa using h2
        subst h2'
        have hor : (strStartsUnderscore k2 || excl.contains k2) = true := by
          rw [hf]; simp
        simp only [normalizeFields]
        rw [if_pos hor, if_pos hor]
      · rw [if_neg h2]
        simp only [normalizeFields]
        by_cases hskip : (strStartsUnderscore k2 || excl.contains k2) = true
        · simp [hskip, normalizeFields_set_excluded excl rest f v hf]
        · simp [hskip, normalizeFields_set_excluded excl rest f v hf]

theorem jobjGet_set_self : ∀ (fs : JObj) (k : String) (v : JVal),
    jobjGet (jobjSet fs k v) k = some v
  | .nil, k, v => by simp [jobjSet, jobjGet]
  | .cons k2 v2 rest, k, v => by
      simp only [jobjSet]
      by_cases h2 : (k2 == k) = true
      · rw [if_pos h2]
        simp [jobjGet, h2]
      · rw [if_neg h2]
        simp [jobjGet, h2, jobjGet_set_self rest k v]

/-- Two sets commute when the second key is already present (its set is
an in-place replacement, so no append-order issue arises). -/
theorem jobjSet_comm_mem : ∀ (fs : JObj) (f k : String) (v nt w : JVal),
    jobjGet fs k = some w → ¬f = k →
    jobjSet (jobjSet fs f v) k nt = jobjSet (jobjSet fs k nt) f v
  | .nil, f, k, v, nt, w, hget, _ => by simp [jobjGet] at hget
  | .cons k2 v2 rest, f, k, v, nt, w, hget, hne => by
      simp only [jobjGet] at hget
      by_cases h2k : (k2 == k) = true
      · have h2f : (k2 == f) = false := by
          have hk : k2 = k := by simpa using h2k
          rw [hk, beq_eq_false_iff_ne]
          exact fun habs => hne habs.symm
        simp [jobjSet, h2k, h2f]
      · rw [if_neg h2k] at hget
        by_cases h2f : (k2 == f) = true
        · simp [jobjSet, h2k, h2f]
        · simp only [jobjSet, h2f, h2k, Bool.false_eq_true, if_false]
          rw [jobjSet_comm_mem rest f k v nt w hget hne]

/-- Filtering an excluded key commutes past a later set of a different
key, even though the underlying association lists may append the two new
bindings in different orders. -/
theorem normalizeFields_set_excluded_inner : ∀ (excl : List String) (fs : JObj)
    (f k : String) (v h : JVal), excl.contains f = true → ¬f = k →
    normalizeFields excl (jobjSet (jobjSet fs f v) k h) =
      normalizeFields excl (jobjSet fs k h)
  | excl, .nil, f, k, v, h, hf, hne => by
      have hor : (strStartsUnderscore f || excl.contains f) = true := by
        rw [hf]; simp
      have hfk : (f == k) = false := by
        rw [beq_eq_false_iff_ne]; exact hne
      have e1 : jobjSet (jobjSet JObj.nil f v) k h =
          JObj.cons f v (JObj.cons k h JObj.nil) := by
        simp [jobjSet, hfk]
      have e2 : jobjSet JObj.nil k h = JObj.cons k h JObj.nil := by simp [jobjSet]
      rw [e1, e2]
      simp only [normalizeFields]
      rw [if_pos hor]
  | excl, .cons k2 v2 rest, f, k, v, h, hf, hne => by
      have hor : (strStartsUnderscore f || excl.contains f) = true := by
        rw [hf]; simp
      by_cases h2f : (k2 == f) = true
      · have h2k : (k2 == k) = false := by
          simp only [beq_iff_eq] at h2f ⊢
          subst h2f
          simpa using hne
        have hor2 : (strStartsUnderscore k2 || excl.contains k2) = true := by
          have : k2 = f := by simpa using h2f
          subst this
          exact hor
        simp only [jobjSet, h2f, h2k, if_true, Bool.false_eq_true, if_false]
        simp only [normalizeFields]
        rw [if_pos hor2, if_pos hor2]
      · by_cases h2k : (k2 == k) = true
        · simp only [jobjSet, h2f, h2k, if_true, Bool.false_eq_true, if_false]
          simp only [normalizeFields]
          by_cases hskip : (strStartsUnderscore k2 || excl.contains k2) = true
          · rw [if_pos hskip, if_pos hskip]
            exact normalizeFields_set_excluded excl rest f v hf
          · rw [if_neg hskip, if_neg hskip]
            rw [normalizeFields_set_excluded excl rest f v hf]
        · simp only [jobjSet, h2f, h2k, Bool.false_eq_true, if_false]
          simp only [normalizeFields]
          by_cases hskip : (strStartsUnderscore k2 || excl.contains k2) = true
          · rw [if_pos hskip, if_pos hskip]
            exact normalizeFields_set_excluded_inner excl rest f k v h hf hne
          · rw [if_neg hskip, if_neg hskip]
            rw [normalizeFields_set_excluded_inner excl rest f k v h hf hne]

/-- Setting an outcome field on an action object whose include-outcome
flag is falsy leaves `_normalize_action` unchanged. -/
theorem normalizeAction_set_outcome (fs : JObj) (f : String) (v : JVal)
    (hf : f ∈ OUTCOME_FIELDS) (hflag : includeOutcomeFlag fs = false) :
    normalizeAction (.jobj (jobjSet fs f v)) = normalizeAction (.jobj fs) := by
  have hf1 : ¬f = "child_action_hash" := by
    simp only [OUTCOME_FIELDS, List.mem_cons, List.not_mem_nil, or_false] at hf
    rcases hf with h | h | h | h | h <;> subst h <;> decide
  have hf2 : ¬f = "_include_outcome_in_hash" := by
    simp only [OUTCOME_FIELDS, List.mem_cons, List.not_mem_nil, or_false] at hf
    rcases hf with h | h | h | h | h <;> subst h <;> decide
  have hcontains : (normalizeExcludedKeys fs).contains f = true := by
    unfold normalizeExcludedKeys
    rw [hflag]
    simp only [OUTCOME_FIELDS, List.mem_cons, List.not_mem_nil, or_false] at hf
    by_cases hc : (jobjGet fs "child_action_hash").isSome = true
    · simp only [hc, if_true, if_pos]
      rcases hf with h | h | h | h | h <;> subst h <;> decide
    · simp only [Bool.not_eq_true] at hc
      simp only [hc, Bool.false_eq_true, if_false]
      rcases hf with h | h | h | h | h <;> subst h <;> decide
  simp only [normalizeAction]
  rw [normalizeExcludedKeys_set_ne fs f v hf1 hf2,
    normalizeFields_set_excluded (normalizeExcludedKeys fs) fs f v hcontains]

/-- C6.  Action identity invariance.  First conjunct (general): for every
fuel, digest function, float repr and dict action object whose internal
include-outcome flag is not set, setting (adding or changing) any outcome
field leaves the computed action hash — `compute_action_hash`'s first
component — unchanged.  Remaining conjuncts (at the claim's own example,
with the identity digest so that distinct hashed payloads give distinct
hashes): the finalized action hashes of the `status="pending"` and
`status="done"` versions coincide, while the event-hash payload bytes and
hence the event hashes differ — with genuine SHA-256 the event hashes
could only coincide on a collision. -/
theorem action_identity_invariance :
    (∀ (fuel : Nat) (sha : List Nat → List Nat) (fr : ℚ → String) (fs : JObj)
        (f : String) (v : JVal),
      f ∈ OUTCOME_FIELDS → includeOutcomeFlag fs = false →
      (computeActionHash fuel sha fr (.jobj (jobjSet fs f v))).map Prod.fst =
        (computeActionHash fuel sha fr (.jobj fs)).map Prod.fst) ∧
    (finalizeHashes 3 id fr0 actionPending).map fstHash =
      (finalizeHashes 3 id fr0 actionDone).map fstHash ∧
    eventHashPayload 3 id fr0 actionPending ≠ eventHashPayload 3 id fr0 actionDone ∧
    (finalizeHashes 3 id fr0 actionPending).map sndHash ≠
      (finalizeHashes 3 id fr0 actionDone).map sndHash := by
  refine ⟨?_, by decide, by decide, by decide⟩
  intro fuel sha fr fs f v hf hflag
  have hft : ¬f = "target" := by
    simp only [OUTCOME_FIELDS, List.mem_cons, List.not_mem_nil, or_false] at hf
    rcases hf with h | h | h | h | h <;> subst h <;> decide
  have hfc : ¬f = "child_action_hash" := by
    simp only [OUTCOME_FIELDS, List.mem_cons, List.not_mem_nil, or_false] at hf
    rcases hf with h | h | h | h | h <;> subst h <;> decide
  have hfi : ¬f = "_include_outcome_in_hash" := by
    simp only [OUTCOME_FIELDS, List.mem_cons, List.not_mem_nil, or_false] at hf
    rcases hf with h | h | h | h | h <;> subst h <;> decide
  cases fuel with
  | zero => rfl
  | succ fuel =>
  simp only [computeActionHash]
  rw [jobjGet_set_ne fs f "target" v hft]
  -- the normalized payload is insensitive to the outcome field through
  -- any additional child_action_hash / target updates
  have hpayload : ∀ fs2 : JObj, includeOutcomeFlag fs2 = false →
      (match canonicalJson fr false (normalizeAction (.jobj (jobjSet fs2 f v))) with
        | Except.error e => Except.error (HashErr.serialization e)
        | Except.ok payload =>
            Except.ok (hexOfBytes (sha (utf8Str payload)), JVal.jobj (jobjSet fs2 f v))).map
          Prod.fst =
      (match canonicalJson fr false (normalizeAction (.jobj fs2)) with
        | Except.error e => Except.error (HashErr.serialization e)
        | Except.ok payload =>
            Except.ok (hexOfBytes (sha (utf8Str payload)), JVal.jobj fs2)).map Prod.fst := by
    intro fs2 hflag2
    rw [normalizeAction_set_outcome fs2 f v hf hflag2]
    cases canonicalJson fr false (normalizeAction (.jobj fs2)) <;> rfl
  cases ht : jobjGet fs "target" with
  | none => exact hpayload fs hflag
  | some tv =>
    cases tv with
    | jnull => exact hpayload fs hflag
    | jbool b => exact hpayload fs hflag
    | jint n => exact hpayload fs hflag
    | jfloat q => exact hpayload fs hflag
    | jnan => exact hpayload fs hflag
    | jstr s => exact hpayload fs hflag
    | jarr xs => exact hpayload fs hflag
    | jobj tf =>
      dsimp only
      by_cases hat : isActionTypeObj tf = true
      · rw [if_pos hat, if_pos hat]
        cases hah : jobjGet tf "action_hash" with
        | some hsh =>
            -- pointer case: child hash already present
            have hswap : jobjSet (jobjSet fs f v) "child_action_hash" hsh =
                jobjSet (jobjSet fs f v) "child_action_hash" hsh := rfl
            have hflagc : includeOutcomeFlag (jobjSet fs "child_action_hash" hsh) = false := by
              rw [includeOutcomeFlag_set_ne fs "child_action_hash" hsh (by decide)]
              exact hflag
            have hexcl : normalizeExcludedKeys (jobjSet (jobjSet fs f v) "child_action_hash" hsh) =
                normalizeExcludedKeys (jobjSet fs "child_action_hash" hsh) := by
              unfold normalizeExcludedKeys
              rw [jobjGet_set_self (jobjSet fs f v) "child_action_hash" hsh,
                jobjGet_set_self fs "child_action_hash" hsh]
              rw [includeOutcomeFlag_set_ne (jobjSet fs f v) "child_action_hash" hsh (by decide),
                includeOutcomeFlag_set_ne fs "child_action_hash" hsh (by decide),
                includeOutcomeFlag_set_ne fs f v hfi]
            have hcontains : (normalizeExcludedKeys (jobjSet fs "child_action_hash" hsh)).contains f
                = true := by
              unfold normalizeExcludedKeys
              rw [jobjGet_set_self fs "child_action_hash" hsh, hflagc]
              simp only [Option.isSome_some, if_true]
              simp only [OUTCOME_FIELDS, List.mem_cons, List.not_mem_nil, or_false] at hf
              rcases hf with h | h | h | h | h <;> subst h <;> decide
            have hnorm : normalizeAction (.jobj (jobjSet (jobjSet fs f v) "child_action_hash" hsh)) =
                normalizeAction (.jobj (jobjSet fs "child_action_hash" hsh)) := by
              simp only [normalizeAction]
              rw [hexcl, normalizeFields_set_excluded_inner
                (normalizeExcludedKeys (jobjSet fs "child_action_hash" hsh)) fs f
                "child_action_hash" v hsh hcontains hfc]
            dsimp only
            rw [hnorm]
            cases canonicalJson fr false
                (normalizeAction (.jobj (jobjSet fs "child_action_hash" hsh))) <;> rfl
        | none =>
            -- recompute case: recurse on the same target on both sides
            cases hrec : computeActionHash fuel sha fr (.jobj tf) with
            | error e => rfl
            | ok pr =>
              obtain ⟨childHash, childObj⟩ := pr
              dsimp only
              -- push the outcome set past the in-place target replacement
              have htswap : ∀ nt : JVal,
                  jobjSet (jobjSet fs f v) "target" nt =
                    jobjSet (jobjSet fs "target" nt) f v := fun nt =>
                jobjSet_comm_mem fs f "target" v nt (.jobj tf) ht hft
              rw [htswap]
              have hflagt : ∀ nt : JVal,
                  includeOutcomeFlag (jobjSet fs "target" nt) = false := fun nt => by
                rw [includeOutcomeFlag_set_ne fs "target" nt (by decide)]
                exact hflag
              have hflagtc : ∀ nt ch, includeOutcomeFlag
                  (jobjSet (jobjSet fs "target" nt) "child_action_hash" ch) = false := fun nt ch => by
                rw [includeOutcomeFlag_set_ne _ "child_action_hash" ch (by decide)]
                exact hflagt nt
              have hexcl2 : ∀ nt ch,
                  normalizeExcludedKeys (jobjSet (jobjSet (jobjSet fs "target" nt) f v)
                    "child_action_hash" ch) =
                  normalizeExcludedKeys (jobjSet (jobjSet fs "target" nt)
                    "child_action_hash" ch) := fun nt ch => by
                unfold normalizeExcludedKeys
                rw [jobjGet_set_self (jobjSet (jobjSet fs "target" nt) f v) "child_action_hash" ch,
                  jobjGet_set_self (jobjSet fs "target" nt) "child_action_hash" ch]
                rw [includeOutcomeFlag_set_ne _ "child_action_hash" ch (by decide),
                  includeOutcomeFlag_set_ne _ "child_action_hash" ch (by decide),
                  includeOutcomeFlag_set_ne (jobjSet fs "target" nt) f v hfi]
              have hcontains2 : ∀ nt ch,
                  (normalizeExcludedKeys (jobjSet (jobjSet fs "target" nt)
                    "child_action_hash" ch)).contains f = true := fun nt ch => by
                unfold normalizeExcludedKeys
                rw [jobjGet_set_self (jobjSet fs "target" nt) "child_action_hash" ch, hflagtc nt ch]
                simp only [Option.isSome_some, if_true]
                simp only [OUTCOME_FIELDS, List.mem_cons, List.not_mem_nil, or_false] at hf
                rcases hf with h | h | h | h | h <;> subst h <;> decide
              have hnorm2 : ∀ nt ch,
                  normalizeAction (.jobj (jobjSet (jobjSet (jobjSet fs "target" nt) f v)
                    "child_action_hash" ch)) =
                  normalizeAction (.jobj (jobjSet (jobjSet fs "target" nt)
                    "child_action_hash" ch)) := fun nt ch => by
                simp only [normalizeAction]
                rw [hexcl2 nt ch, normalizeFields_set_excluded_inner
                  (normalizeExcludedKeys (jobjSet (jobjSet fs "target" nt) "child_action_hash" ch))
                  (jobjSet fs "target" nt) f "child_action_hash" v ch (hcontains2 nt ch) hfc]
              rw [hnorm2]
              split <;> rfl
      · rw [if_neg hat, if_neg hat]
        exact hpayload fs hflag

/-- Witness for C6: setting `status` on a concrete action object leaves
`compute_action_hash` unchanged. -/
theorem action_identity_invariance_witness :
    (computeActionHash 2 id fr0 (.jobj (jobjSet
        (.cons "type" (.jstr "action") (.cons "verb" (.jstr "go")
          (.cons "target" (.jstr "@dock") .nil)))
        "status" (.jstr "done")))).map Prod.fst =
      (computeActionHash 2 id fr0 (.jobj
        (.cons "type" (.jstr "action") (.cons "verb" (.jstr "go")
          (.cons "target" (.jstr "@dock") .nil))))).map Prod.fst :=
  (action_identity_invariance).1 2 id fr0
    (.cons "type" (.jstr "action") (.cons "verb" (.jstr "go")
      (.cons "target" (.jstr "@dock") .nil)))
    "status" (.jstr "done") (by decide) (by decide)

/-- An association list on which `alistGet` finds nothing for a key has no
entry carrying that key. -/
theorem alistGet_none_key {α : Type} :
    ∀ (m : List (String × α)) (k : String), alistGet m k = none →
      ∀ e ∈ m, e.1 ≠ k
  | [], _, _, e, he => absurd he (List.not_mem_nil e)
  | (k2, _) :: rest, k, hnone, e, he => by
      simp only [alistGet] at hnone
      split at hnone
      · exact absurd hnone (by simp)
      · rename_i hk
        rcases List.mem_cons.mp he with rfl | h2
        · intro hh
          exact hk (by simp only [beq_iff_eq]; exact hh)
        · exact alistGet_none_key rest k hnone e h2

/-- A successful `alistGet` lookup exhibits an entry of the list. -/
theorem alistGet_some_key {α : Type} :
    ∀ (m : List (String × α)) (k : String) (v : α), alistGet m k = some v →
      (k, v) ∈ m
  | [], k, v, h => by simp [alistGet] at h
  | (k2, v2) :: rest, k, v, hsome => by
      simp only [alistGet] at hsome
      split at hsome
      · rename_i hk
        obtain rfl : k2 = k := by simpa using hk
        obtain rfl : v2 = v := by simpa using hsome
        exact List.mem_cons_self _ _
      · exact List.mem_cons_of_mem _ (alistGet_some_key rest k v hsome)

/-- Membership through the insertion step of the stable descending sort. -/
theorem mem_insDescTs (a x : AnnLit) :
    ∀ l : List AnnLit, a ∈ insDescTs x l ↔ a = x ∨ a ∈ l
  | [] => by simp [insDescTs]
  | y :: ys => by
      simp only [insDescTs]
      split
      · rw [List.mem_cons, mem_insDescTs a x ys, List.mem_cons]
        tauto
      · simp only [List.mem_cons]

/-- The stable descending sort neither adds nor drops candidates. -/
theorem mem_sortDescTs (a : AnnLit) :
    ∀ l : List AnnLit, a ∈ sortDescTs l ↔ a ∈ l
  | [] => Iff.rfl
  | x :: xs => by
      simp only [sortDescTs]
      rw [mem_insDescTs a x (sortDescTs xs), mem_sortDescTs a xs, List.mem_cons]

/-- The head of the descending sort is a member with the newest timestamp:
the leading-edge window of `pi_safe` is anchored at the true maximum. -/
theorem sortDescTs_head_max :
    ∀ (l : List AnnLit) (h : AnnLit) (t : List AnnLit), sortDescTs l = h :: t →
      h ∈ l ∧ ∀ x ∈ l, x.timestamp ≤ h.timestamp
  | [], h, t, heq => by simp [sortDescTs] at heq
  | a :: as, h, t, heq => by
      simp only [sortDescTs] at heq
      cases hs : sortDescTs as with
      | nil =>
          have has : as = [] := by
            cases as with
            | nil => rfl
            | cons b bs =>
                have hb : b ∈ sortDescTs (b :: bs) :=
                  (mem_sortDescTs b (b :: bs)).mpr (List.mem_cons_self _ _)
                rw [hs] at hb
                exact absurd hb (List.not_mem_nil b)
          rw [hs] at heq
          simp only [insDescTs] at heq
          injection heq with h1 _
          subst h1
          subst has
          exact ⟨List.mem_cons_self _ _, by simp⟩
      | cons h0 t0 =>
          obtain ⟨hh0, hmax⟩ := sortDescTs_head_max as h0 t0 hs
          rw [hs] at heq
          simp only [insDescTs] at heq
          split at heq
          · rename_i hgt
            injection heq with h1 _
            subst h1
            refine ⟨List.mem_cons_of_mem a hh0, ?_⟩
            intro x hx
            rcases List.mem_cons.mp hx with rfl | hx2
            · exact le_of_lt hgt
            · exact hmax x hx2
          · rename_i hle
            injection heq with h1 _
            subst h1
            refine ⟨List.mem_cons_self _ _, ?_⟩
            intro x hx
            rcases List.mem_cons.mp hx with rfl | hx2
            · exact le_refl _
            · exact le_trans (hmax x hx2) (not_lt.mp hle)

/-- `setAdd` keeps existing members. -/
theorem setAdd_mem_of_mem {α : Type} [DecidableEq α] (s : List α) (x y : α)
    (h : x ∈ s) : x ∈ setAdd s y := by
  unfold setAdd
  split
  · exact h
  · exact List.mem_append_left _ h

/-- `setAdd` contains the element it adds. -/
theorem setAdd_mem_self {α : Type} [DecidableEq α] (s : List α) (y : α) :
    y ∈ setAdd s y := by
  unfold setAdd
  split
  · rename_i hc
    exact List.mem_of_elem_eq_true hc
  · exact List.mem_append_right _ (List.mem_singleton.mpr rfl)

/-- One step of the predicate-grouping fold keeps every entry for a key and
keeps a candidate already filed under that key. -/
theorem addToPredGroup_keep (m : List (String × List AnnLit)) (c2 : AnnLit)
    (q : String) (c : AnnLit)
    (hex : ∃ e ∈ m, e.1 = q) (hall : ∀ e ∈ m, e.1 = q → c ∈ e.2) :
    (∃ e ∈ addToPredGroup m c2, e.1 = q) ∧
      (∀ e ∈ addToPredGroup m c2, e.1 = q → c ∈ e.2) := by
  unfold addToPredGroup
  split
  · constructor
    · obtain ⟨e, hem, heq⟩ := hex
      refine ⟨if e.1 == c2.predicate then (e.1, e.2 ++ [c2]) else e,
        List.mem_map.mpr ⟨e, hem, rfl⟩, ?_⟩
      split <;> simp [heq]
    · intro e2 he2 hq
      obtain ⟨e, hem, rfl⟩ := List.mem_map.mp he2
      by_cases hc : (e.1 == c2.predicate) = true
      · rw [if_pos hc] at hq ⊢
        exact List.mem_append_left _ (hall e hem hq)
      · rw [if_neg hc] at hq ⊢
        exact hall e hem hq
  · rename_i hns
    constructor
    · obtain ⟨e, hem, heq⟩ := hex
      exact ⟨e, List.mem_append_left _ hem, heq⟩
    · intro e2 he2 hq
      rcases List.mem_append.mp he2 with h2 | h2
      · exact hall e2 h2 hq
      · exfalso
        have he2eq : e2 = (c2.predicate, [c2]) := by simpa using h2
        obtain ⟨e, hem, heq⟩ := hex
        have hnone : alistGet m c2.predicate = none := by
          cases hg : alistGet m c2.predicate with
          | none => rfl
          | some v => rw [hg] at hns; simp at hns
        have he1 : e.1 = c2.predicate := by
          rw [he2eq] at hq
          exact heq.trans hq.symm
        exact alistGet_none_key m c2.predicate hnone e hem he1

/-- The predicate-grouping fold keeps every entry for a key and the
candidates already filed under it. -/
theorem foldl_addToPredGroup_keep (q : String) (c : AnnLit) :
    ∀ (cs : List AnnLit) (m : List (String × List AnnLit)),
      (∃ e ∈ m, e.1 = q) → (∀ e ∈ m, e.1 = q → c ∈ e.2) →
      (∃ e ∈ cs.foldl addToPredGroup m, e.1 = q) ∧
        (∀ e ∈ cs.foldl addToPredGroup m, e.1 = q → c ∈ e.2)
  | [], _, hex, hall => ⟨hex, hall⟩
  | c2 :: cs, m, hex, hall => by
      rw [List.foldl_cons]
      obtain ⟨hex2, hall2⟩ := addToPredGroup_keep m c2 q c hex hall
      exact foldl_addToPredGroup_keep q c cs (addToPredGroup m c2) hex2 hall2

/-- Filing a candidate puts it into every entry carrying its predicate, and
such an entry exists afterwards. -/
theorem addToPredGroup_self_mem (m : List (String × List AnnLit)) (c : AnnLit) :
    (∃ e ∈ addToPredGroup m c, e.1 = c.predicate) ∧
      (∀ e ∈ addToPredGroup m c, e.1 = c.predicate → c ∈ e.2) := by
  unfold addToPredGroup
  split
  · rename_i hs
    constructor
    · obtain ⟨v, hv⟩ := Option.isSome_iff_exists.mp hs
      refine ⟨(c.predicate, v ++ [c]),
        List.mem_map.mpr ⟨(c.predicate, v), alistGet_some_key m c.predicate v hv, ?_⟩, rfl⟩
      dsimp only
      rw [if_pos (show (c.predicate == c.predicate) = true by simp)]
    · intro e2 he2 hq
      obtain ⟨e, hem, rfl⟩ := List.mem_map.mp he2
      by_cases hc : (e.1 == c.predicate) = true
      · rw [if_pos hc] at hq ⊢
        exact List.mem_append_right _ (List.mem_singleton.mpr rfl)
      · rw [if_neg hc] at hq ⊢
        exact absurd (by simp [hq]) hc
  · rename_i hns
    constructor
    · exact ⟨(c.predicate, [c]),
        List.mem_append_right _ (List.mem_singleton.mpr rfl), rfl⟩
    · intro e2 he2 hq
      rcases List.mem_append.mp he2 with h2 | h2
      · exfalso
        have hnone : alistGet m c.predicate = none := by
          cases hg : alistGet m c.predicate with
          | none => rfl
          | some v => rw [hg] at hns; simp at hns
        exact alistGet_none_key m c.predicate hnone e2 h2 hq
      · have he2eq : e2 = (c.predicate, [c]) := by simpa using h2
        rw [he2eq]
        exact List.mem_singleton.mpr rfl

/-- Completeness of the grouping stage: a candidate appears in every entry
of `by_pred` that carries its predicate. -/
theorem byPred_complete (cs : List AnnLit) (c : AnnLit) (hc : c ∈ cs) :
    ∀ items, (c.predicate, items) ∈ byPred cs → c ∈ items := by
  intro items hmem
  obtain ⟨s, t, rfl⟩ := List.append_of_mem hc
  unfold byPred at hmem
  rw [List.foldl_append, List.foldl_cons] at hmem
  obtain ⟨h1, h2⟩ := addToPredGroup_self_mem (s.foldl addToPredGroup []) c
  obtain ⟨-, hall⟩ := foldl_addToPredGroup_keep c.predicate c t _ h1 h2
  exact hall (c.predicate, items) hmem rfl

/-- Soundness of the grouping fold: every filed candidate comes from the
processed input and carries its entry key as predicate. -/
theorem foldl_addToPredGroup_sound (U : List AnnLit) :
    ∀ (cs : List AnnLit) (m : List (String × List AnnLit)),
      (∀ e ∈ m, ∀ x ∈ e.2, x ∈ U ∧ x.predicate = e.1) →
      (∀ c2 ∈ cs, c2 ∈ U) →
      ∀ e ∈ cs.foldl addToPredGroup m, ∀ x ∈ e.2, x ∈ U ∧ x.predicate = e.1
  | [], _, hm, _ => hm
  | c2 :: cs, m, hm, hcs => by
      rw [List.foldl_cons]
      refine foldl_addToPredGroup_sound U cs (addToPredGroup m c2) ?_
        (fun x hx => hcs x (List.mem_cons_of_mem _ hx))
      intro e hem x hx
      unfold addToPredGroup at hem
      split at hem
      · obtain ⟨e0, he0, rfl⟩ := List.mem_map.mp hem
        by_cases hcnd : (e0.1 == c2.predicate) = true
        · rw [if_pos hcnd] at hx ⊢
          rcases List.mem_append.mp hx with h3 | h3
          · exact hm e0 he0 x h3
          · have hx2 : x = c2 := by simpa using h3
            rw [hx2]
            exact ⟨hcs c2 (List.mem_cons_self _ _), by
              have := (beq_iff_eq (a := e0.1) (b := c2.predicate)).mp hcnd
              rw [this]⟩
        · rw [if_neg hcnd] at hx ⊢
          exact hm e0 he0 x hx
      · rcases List.mem_append.mp hem with h2 | h2
        · exact hm e h2 x hx
        · have he2 : e = (c2.predicate, [c2]) := by simpa using h2
          rw [he2] at hx ⊢
          have hx2 : x = c2 := by simpa using hx
          rw [hx2]
          exact ⟨hcs c2 (List.mem_cons_self _ _), rfl⟩

/-- Soundness of the grouping stage: a `by_pred` entry holds only input
candidates whose predicate is its key. -/
theorem byPred_sound (cs : List AnnLit) (pred : String) (items : List AnnLit)
    (hmem : (pred, items) ∈ byPred cs) :
    ∀ x ∈ items, x ∈ cs ∧ x.predicate = pred :=
  fun x hx =>
    foldl_addToPredGroup_sound cs cs [] (by simp) (fun _ h => h) (pred, items) hmem x hx

/-- The consensus accumulation never removes a key from a group set. -/
theorem buildGroups_keep (indep : List (String × String)) (k : String × PyVal) :
    ∀ (edge : List AnnLit) (st : GroupState),
      (∃ p ∈ st.groups, k ∈ p.2) →
      ∃ p ∈ (buildGroups indep edge st).groups, k ∈ p.2
  | [], _, hex => hex
  | item :: rest, st, hex => by
      have hex1 : ∃ p ∈ (if (alistGet st.groups (groupIdOf indep item.source)).isSome
          then st.groups else st.groups ++ [(groupIdOf indep item.source, [])]),
          k ∈ p.2 := by
        split
        · exact hex
        · obtain ⟨p, hp, hk2⟩ := hex
          exact ⟨p, List.mem_append_left _ hp, hk2⟩
      cases hk : groupKeyOf item.value with
      | none =>
          simp only [buildGroups, hk]
          exact buildGroups_keep indep k rest _ hex1
      | some key =>
          simp only [buildGroups, hk]
          refine buildGroups_keep indep k rest _ ?_
          obtain ⟨p, hp, hk2⟩ := hex1
          refine ⟨if p.1 == groupIdOf indep item.source then (p.1, setAdd p.2 key) else p,
            List.mem_map.mpr ⟨p, hp, rfl⟩, ?_⟩
          split
          · exact setAdd_mem_of_mem _ _ _ hk2
          · exact hk2

/-- Every member of the leading edge whose value has a consensus key
(so every non-NaN member) plants that key in some group set. -/
theorem buildGroups_mem (indep : List (String × String)) :
    ∀ (edge : List AnnLit) (st : GroupState) (item : AnnLit) (k : String × PyVal),
      item ∈ edge → groupKeyOf item.value = some k →
      ∃ p ∈ (buildGroups indep edge st).groups, k ∈ p.2
  | [], _, item, _, hmem, _ => absurd hmem (List.not_mem_nil item)
  | it2 :: rest, st, item, k, hmem, hk => by
      rcases List.mem_cons.mp hmem with rfl | hrest
      · simp only [buildGroups, hk]
        refine buildGroups_keep indep k rest _ ?_
        have hgid : ∃ e ∈ (if (alistGet st.groups (groupIdOf indep item.source)).isSome
            then st.groups else st.groups ++ [(groupIdOf indep item.source, [])]),
            e.1 = groupIdOf indep item.source := by
          split
          · rename_i hs
            obtain ⟨v, hv⟩ := Option.isSome_iff_exists.mp hs
            exact ⟨(groupIdOf indep item.source, v), alistGet_some_key _ _ _ hv, rfl⟩
          · exact ⟨(groupIdOf indep item.source, []),
              List.mem_append_right _ (List.mem_singleton.mpr rfl), rfl⟩
        obtain ⟨e, hem, heq⟩ := hgid
        refine ⟨(e.1, setAdd e.2 k), List.mem_map.mpr ⟨e, hem, ?_⟩, setAdd_mem_self _ _⟩
        rw [if_pos (show (e.1 == groupIdOf indep item.source) = true by simp [heq])]
      · cases hk2 : groupKeyOf it2.value with
        | none =>
            simp only [buildGroups, hk2]
            exact buildGroups_mem indep rest _ item k hrest hk
        | some key2 =>
            simp only [buildGroups, hk2]
            exact buildGroups_mem indep rest _ item k hrest hk

/-- A consistency check that starts from a reference key and succeeds forces
every key of every group to equal that reference. -/
theorem checkGroupsLoop_some_ref :
    ∀ (gs : List (String × List (String × PyVal))) (r : String × PyVal),
      (checkGroupsLoop gs (some r)).1 = true → ∀ p ∈ gs, ∀ k ∈ p.2, k = r
  | [], _, _, p, hp, _, _ => absurd hp (List.not_mem_nil p)
  | (gid, keys) :: rest, r, htrue, p, hp, k, hk => by
      simp only [checkGroupsLoop] at htrue
      split at htrue
      · exact absurd htrue (by simp)
      · rename_i hlen
        cases keys with
        | nil =>
            rcases List.mem_cons.mp hp with rfl | hp2
            · exact absurd hk (List.not_mem_nil k)
            · exact checkGroupsLoop_some_ref rest r htrue p hp2 k hk
        | cons k0 ktail =>
            have htail : ktail = [] := by
              cases ktail with
              | nil => rfl
              | cons u us => exact absurd (by simp) hlen
            subst htail
            dsimp only at htrue
            by_cases hk0 : k0 = r
            · rw [if_pos hk0] at htrue
              rcases List.mem_cons.mp hp with rfl | hp2
              · have hkk : k = k0 := by simpa using hk
                rw [hkk, hk0]
              · exact checkGroupsLoop_some_ref rest r htrue p hp2 k hk
            · rw [if_neg hk0] at htrue
              exact absurd htrue (by simp)

/-- A successful consistency check from no reference forces all keys across
all groups to agree. -/
theorem checkGroupsLoop_all_eq :
    ∀ gs : List (String × List (String × PyVal)),
      (checkGroupsLoop gs none).1 = true →
      ∀ p1 ∈ gs, ∀ k1 ∈ p1.2, ∀ p2 ∈ gs, ∀ k2 ∈ p2.2, k1 = k2
  | [], _, p1, hp1, _, _, _, _, _, _ => absurd hp1 (List.not_mem_nil p1)
  | (gid, keys) :: rest, htrue, p1, hp1, k1, hk1, p2, hp2, k2, hk2 => by
      simp only [checkGroupsLoop] at htrue
      split at htrue
      · exact absurd htrue (by simp)
      · rename_i hlen
        cases keys with
        | nil =>
            rcases List.mem_cons.mp hp1 with rfl | hp1r
            · exact absurd hk1 (List.not_mem_nil k1)
            · rcases List.mem_cons.mp hp2 with rfl | hp2r
              · exact absurd hk2 (List.not_mem_nil k2)
              · exact checkGroupsLoop_all_eq rest htrue p1 hp1r k1 hk1 p2 hp2r k2 hk2
        | cons k0 ktail =>
            have htail : ktail = [] := by
              cases ktail with
              | nil => rfl
              | cons u us => exact absurd (by simp) hlen
            subst htail
            dsimp only at htrue
            have hall := checkGroupsLoop_some_ref rest k0 htrue
            have h1 : k1 = k0 := by
              rcases List.mem_cons.mp hp1 with rfl | hp1r
              · simpa using hk1
              · exact hall p1 hp1r k1 hk1
            have h2 : k2 = k0 := by
              rcases List.mem_cons.mp hp2 with rfl | hp2r
              · simpa using hk2
              · exact hall p2 hp2r k2 hk2
            rw [h1, h2]

/-- Two leading-edge members with distinct consensus keys make the
independence-group consistency check fail, whatever their sources and
groups are. -/
theorem conflict_inconsistent (indep : List (String × String))
    (edge : List AnnLit) (a b : AnnLit) (ka kb : String × PyVal)
    (hka : groupKeyOf a.value = some ka) (hkb : groupKeyOf b.value = some kb)
    (hne : ka ≠ kb) (hae : a ∈ edge) (hbe : b ∈ edge) :
    (checkGroupsLoop (buildGroups indep edge
      { groups := [], valueMap := [] }).groups none).1 = false := by
  cases hres : (checkGroupsLoop (buildGroups indep edge
      { groups := [], valueMap := [] }).groups none).1 with
  | false => rfl
  | true =>
      obtain ⟨pa, hpa, hka2⟩ := buildGroups_mem indep edge _ a ka hae hka
      obtain ⟨pb, hpb, hkb2⟩ := buildGroups_mem indep edge _ b kb hbe hkb
      exact absurd (checkGroupsLoop_all_eq _ hres pa hpa ka hka2 pb hpb kb hkb2) hne

/-- Per-predicate suppression: once the grouped map files, under predicate
`p`, two candidates with distinct consensus keys that the whole entry keeps
inside the leading-edge window, the consensus loop promotes nothing for
`p` — no output literal of the loop carries `p`. -/
theorem piSafeLoop_conflict (fuel : Nat) (cfg : ProjConfig) (fullCtx : Option JVal)
    (reqMap : List (String × List String)) (indep : List (String × String))
    (compiledReqs : List (String × List (List String)))
    (p : String) (a b : AnnLit) (ka kb : String × PyVal)
    (hka : groupKeyOf a.value = some ka) (hkb : groupKeyOf b.value = some kb)
    (hne : ka ≠ kb) :
    ∀ m : List (String × List AnnLit),
      (∀ items, (p, items) ∈ m → a ∈ items ∧ b ∈ items ∧
        ∀ x ∈ items, x.timestamp - a.timestamp ≤ cfg.tauWindowMs ∧
          x.timestamp - b.timestamp ≤ cfg.tauWindowMs) →
      ∀ bl ∈ piSafeLoop fuel cfg fullCtx reqMap indep compiledReqs m, bl.predicate ≠ p
  | [], _, bl, hbl => by simp [piSafeLoop] at hbl
  | (pred, items) :: rest, hm, bl, hbl => by
      have hrest := fun items2 h2 => hm items2 (List.mem_cons_of_mem _ h2)
      have htail := piSafeLoop_conflict fuel cfg fullCtx reqMap indep compiledReqs
        p a b ka kb hka hkb hne rest hrest
      simp only [piSafeLoop] at hbl
      split at hbl
      · exact htail bl hbl
      · split at hbl
        · exact htail bl hbl
        · split at hbl
          · exact htail bl hbl
          · rename_i newest sortedRest heq
            split at hbl
            · rename_i consistent refKey hcheck
              split at hbl
              · rename_i hconsTrue
                split at hbl
                · rename_i rv halist
                  rcases List.mem_cons.mp hbl with rfl | hbl2
                  · intro hpp
                    have hpd : pred = p := hpp
                    subst hpd
                    obtain ⟨hain, hbin, hwinall⟩ := hm items (List.mem_cons_self _ _)
                    have hnewest : newest ∈ items := by
                      have h0 : newest ∈ sortDescTs items := by
                        rw [heq]; exact List.mem_cons_self _ _
                      exact (mem_sortDescTs newest items).mp h0
                    have haLE : a ∈ (newest :: sortedRest).filter
                        (fun it => decide (newest.timestamp - it.timestamp ≤ cfg.tauWindowMs)) := by
                      refine List.mem_filter.mpr ⟨?_, ?_⟩
                      · rw [← heq]
                        exact (mem_sortDescTs a items).mpr hain
                      · exact decide_eq_true (hwinall newest hnewest).1
                    have hbLE : b ∈ (newest :: sortedRest).filter
                        (fun it => decide (newest.timestamp - it.timestamp ≤ cfg.tauWindowMs)) := by
                      refine List.mem_filter.mpr ⟨?_, ?_⟩
                      · rw [← heq]
                        exact (mem_sortDescTs b items).mpr hbin
                      · exact decide_eq_true (hwinall newest hnewest).2
                    have hfail := conflict_inconsistent indep _ a b ka kb hka hkb hne haLE hbLE
                    rw [hcheck] at hfail
                    rw [hconsTrue] at hfail
                    exact absurd hfail (by simp)
                  · exact htail bl hbl2
                · exact htail bl hbl
              · exact htail bl hbl
            · exact htail bl hbl

/-- C3 (amended: both conflicting values non-NaN): for every evidence list
and predicate `p`, if two candidates for `p` both pass the filter stage
(`is_candidate`), both lie within the simultaneity window of the newest
timestamp among the filtered candidates for `p` (stated equivalently: every
filtered candidate for `p` is within `tau_window_ms` of each of them), and
their values carry distinct type-tagged consensus keys `(type(v).__name__, v)`
— so `1` and `true` differ — with neither value NaN, then `p` is absent from
the safe-literal list of `pi_safe`: suppressed, not mapped to `false` or to
either value.  Sources and independence groups are arbitrary, so the same-
and different-group cases are both covered.  (The non-NaN proviso is needed:
a NaN candidate is skipped by the consensus loop instead of suppressing,
see the accompanying counterexample.) -/
theorem projection_conflict_suppression
    (fuel : Nat) (cRich : List AnnLit) (cfg : ProjConfig) (nowMs : Int)
    (authMap : Option (List (String × List String))) (fullCtx : Option JVal)
    (reqMap : List (String × List String)) (indep : List (String × String))
    (compiledReqs : List (String × List (List String)))
    (p : String) (a b : AnnLit) (ka kb : String × PyVal)
    (hamem : a ∈ cRich) (hbmem : b ∈ cRich)
    (hap : a.predicate = p) (hbp : b.predicate = p)
    (haf : isCandidate a cfg nowMs authMap = true)
    (hbf : isCandidate b cfg nowMs authMap = true)
    (hka : groupKeyOf a.value = some ka) (hkb : groupKeyOf b.value = some kb)
    (hne : ka ≠ kb)
    (hwin : ∀ c ∈ cRich, isCandidate c cfg nowMs authMap = true → c.predicate = p →
      c.timestamp - a.timestamp ≤ cfg.tauWindowMs ∧
        c.timestamp - b.timestamp ≤ cfg.tauWindowMs) :
    ∀ bl ∈ piSafe fuel cRich cfg nowMs authMap fullCtx reqMap indep compiledReqs,
      bl.predicate ≠ p := by
  intro bl hbl
  simp only [piSafe] at hbl
  refine piSafeLoop_conflict fuel cfg fullCtx reqMap indep compiledReqs p a b ka kb
    hka hkb hne _ ?_ bl hbl
  intro items hpm
  have hain : a ∈ items :=
    byPred_complete (cRich.filter (fun l => isCandidate l cfg nowMs authMap)) a
      (List.mem_filter.mpr ⟨hamem, haf⟩) items (by rw [hap]; exact hpm)
  have hbin : b ∈ items :=
    byPred_complete (cRich.filter (fun l => isCandidate l cfg nowMs authMap)) b
      (List.mem_filter.mpr ⟨hbmem, hbf⟩) items (by rw [hbp]; exact hpm)
  refine ⟨hain, hbin, ?_⟩
  intro x hx
  obtain ⟨hxcs, hxp⟩ := byPred_sound _ p items hpm x hx
  obtain ⟨hxmem, hxf⟩ := List.mem_filter.mp hxcs
  exact hwin x hxmem hxf hxp

/-- Witness for C3: sources `s1`/`s2` in different independence groups
report `1` and `true` for `@p` at the same timestamp; `@p` is suppressed. -/
theorem projection_conflict_suppression_witness :
    groupKeyOf (PyVal.pint 1) = some ("int", .pint 1) ∧
    groupKeyOf (PyVal.pbool true) = some ("bool", .pbool true) ∧
    (("int", PyVal.pint 1) : String × PyVal) ≠ ("bool", PyVal.pbool true) ∧
    (∀ bl ∈ piSafe 0
        [⟨"@p", .pint 1, 1000, "s1", 1⟩, ⟨"@p", .pbool true, 1000, "s2", 1⟩]
        ⟨10000, 0, 100⟩ 1000 none none [] [("s1", "g1"), ("s2", "g2")] [],
      bl.predicate ≠ "@p") :=
  ⟨by decide, by decide, by decide,
    projection_conflict_suppression 0
      [⟨"@p", .pint 1, 1000, "s1", 1⟩, ⟨"@p", .pbool true, 1000, "s2", 1⟩]
      ⟨10000, 0, 100⟩ 1000 none none [] [("s1", "g1"), ("s2", "g2")] []
      "@p" ⟨"@p", .pint 1, 1000, "s1", 1⟩ ⟨"@p", .pbool true, 1000, "s2", 1⟩
      ("int", .pint 1) ("bool", .pbool true)
      (by decide) (by decide) rfl rfl (by decide) (by decide) rfl rfl
      (by decide) (by decide)⟩

/-- Counterexample to C3 as stated: a NaN reading and a `true` reading for
`@p`, same timestamp, distinct type-tagged values (`("float", nan)` vs
`("bool", true)`), different independence groups, both passing the filter —
yet `pi_safe` does not suppress `@p`: the NaN candidate is skipped by the
consensus loop (context_projection.py lines 342-346) after its group entry
was initialized, the surviving group agrees on `true`, and `@p` is promoted
to `true`. -/
theorem projection_conflict_suppression_nan_cex :
    isCandidate ⟨"@p", .pnanF, 1000, "s1", 1⟩ ⟨10000, 0, 100⟩ 1000 none = true ∧
    isCandidate ⟨"@p", .pbool true, 1000, "s2", 1⟩ ⟨10000, 0, 100⟩ 1000 none = true ∧
    (pyTypeNameP .pnanF, PyVal.pnanF) ≠ (pyTypeNameP (.pbool true), PyVal.pbool true) ∧
    piSafe 0 [⟨"@p", .pnanF, 1000, "s1", 1⟩, ⟨"@p", .pbool true, 1000, "s2", 1⟩]
        ⟨10000, 0, 100⟩ 1000 none none [] [("s1", "g1"), ("s2", "g2")] [] =
      [⟨"@p", .pbool true⟩] := by
  decide

end Noe
